import Mathlib

/-!
# Verification of `callHierarchyProvider.ts`

A shallow embedding of pyright's call-hierarchy language-service feature
(`packages/pyright-internal/src/languageService/callHierarchyProvider.ts`)
together with proofs about the claims of its specification.

The provider consumes a number of host capabilities (type evaluator, symbol
collector, parse-tree utilities, path utilities).  Those live outside the
embedded file; they are modelled as oracles (function-valued fields of
`TypeEvaluator` / `ProgramView`) or, where their behaviour matters to a claim,
as definitions modelled from the spec (each such definition says so in its
doc comment).
-/

namespace CallHierarchy

/-- A source range.  The source stores line/character positions computed by the
external `convertOffsetsToRange`; we keep the underlying character offsets,
which is an equality-preserving representation for a fixed file. -/
structure Range where
  start : Nat
  stop : Nat
deriving DecidableEq, Repr

/-- `rangesAreEqual` from `common/textRange`. -/
def rangesAreEqual (a b : Range) : Bool :=
  decide (a = b)

/-- Modelled from the spec: the external `positionUtils.convertOffsetsToRange`
maps a pair of character offsets (plus the file's line table) to a range; we
keep the offsets themselves. -/
def convertOffsetsToRange (start stop : Nat) : Range :=
  ⟨start, stop⟩

/-- `DeclarationType` from `analyzer/declaration` (the cases the provider
distinguishes, plus representative other kinds). -/
inductive DeclarationType where
  | Intrinsic
  | Variable
  | Parameter
  | SpecialBuiltInClass
  | Function
  | Class
  | Alias
deriving DecidableEq, Repr

/-- A name node of the parse tree.  `nodeId` models reference identity of
parse nodes (the source compares nodes with `===`). -/
structure NameNode where
  nodeId : Nat
  value : String
  start : Nat
  length : Nat
deriving DecidableEq, Repr

/-- A declaration, as the provider reads it: kind, defining file path, source
range, defining parse node (by identity), the declared-type presence flag
consulted through `DeclarationUtils.hasTypeForDeclaration`, and the name
returned by `DeclarationUtils.getNameFromDeclaration`. -/
structure Declaration where
  type : DeclarationType
  path : String
  range : Range
  node : Nat
  hasDeclaredTypeFlag : Bool
  name : Option String
deriving DecidableEq, Repr

/-- Modelled from the spec: `DeclarationUtils.hasTypeForDeclaration` (not under
`src/`); the spec's data model gives declarations an "optional declared-type
presence flag". -/
def hasTypeForDeclaration (d : Declaration) : Bool :=
  d.hasDeclaredTypeFlag

/-- Modelled from the spec: `DeclarationUtils.getNameFromDeclaration`. -/
def getNameFromDeclaration (d : Declaration) : Option String :=
  d.name

/-- Modelled from the spec: `DeclarationUtils.areDeclarationsSame` — structural
declaration equality, "same file + same range + same kind" (spec section 3). -/
def areDeclarationsSame (a b : Declaration) : Bool :=
  decide (a.type = b.type) && decide (a.path = b.path) && decide (a.range = b.range)

/-- The LSP symbol kinds the provider can emit. -/
inductive SymbolKind where
  | Module
  | Function
  | Class
  | Property
  | Variable
  | Method
  | Other
deriving DecidableEq, Repr

/-- An LSP `CallHierarchyItem`. -/
structure CallHierarchyItem where
  name : String
  kind : SymbolKind
  uri : String
  range : Range
  selectionRange : Range
deriving DecidableEq, Repr

/-- An LSP `CallHierarchyOutgoingCall`: the callee item plus the ordered list
of call-site ranges inside the queried function; the LSP field `to` clashes
with structure syntax, so it is spelled `toItem` here. -/
structure CallHierarchyOutgoingCall where
  toItem : CallHierarchyItem
  fromRanges : List Range
deriving DecidableEq, Repr

/-- An LSP `CallHierarchyIncomingCall`; the LSP field `from` is a Lean keyword,
so it is spelled `frm` here. -/
structure CallHierarchyIncomingCall where
  frm : CallHierarchyItem
  fromRanges : List Range
deriving DecidableEq, Repr

/-- A member found by class-member lookup: the symbol's declarations. -/
structure MemberInfo where
  symbolDeclarations : List Declaration
deriving DecidableEq, Repr

/-- A class type's member tables: the class's own symbol table and the members
contributed by base classes (possibly declared in other modules). -/
structure ClassInfo where
  ownMembers : List (String × MemberInfo)
  inheritedMembers : List (String × MemberInfo)
deriving DecidableEq, Repr

/-- The fragment of pyright's type algebra the provider inspects:
function types, class types (with the flags `isInstantiableClass`,
`isClassInstance` and `ClassType.isPropertyClass` test), unions
(for `doForEachSubtype`), and everything else. -/
inductive PyType where
  | functionType
  | classType (info : ClassInfo) (instantiable : Bool) (isInstance : Bool) (isProperty : Bool)
  | unionType (subtypes : List PyType)
  | otherType

/-- `isFunction` from `analyzer/types`. -/
def isFunction : PyType → Bool
  | .functionType => true
  | _ => false

/-- `isInstantiableClass` from `analyzer/types`. -/
def isInstantiableClass : PyType → Bool
  | .classType _ i _ _ => i
  | _ => false

/-- `isClassInstance` from `analyzer/types`. -/
def isClassInstance : PyType → Bool
  | .classType _ _ i _ => i
  | _ => false

/-- `ClassType.isPropertyClass` from `analyzer/types`. -/
def isPropertyClass : PyType → Bool
  | .classType _ _ _ p => p
  | _ => false

/-- Modelled from the spec: `doForEachSubtype` from `analyzer/typeUtils`
iterates the subtypes of a union, or the type itself otherwise. -/
def subtypesOf : PyType → List PyType
  | .unionType ts => ts
  | t => [t]

/-- Find a member by name in one member table. -/
def lookupMemberIn (members : List (String × MemberInfo)) (memberName : String) :
    Option MemberInfo :=
  (members.find? (fun p => decide (p.1 = memberName))).map Prod.snd

/-- Modelled from the spec: `typeUtils.lookUpClassMember` (not under `src/`).
With `skipBaseClasses = true` (the `ClassMemberLookupFlags.SkipBaseClasses`
flag the provider passes) only the class's own symbol table is searched; the
spec requires that the provider "must not walk an inherited constructor from
an unrelated file". -/
def lookUpClassMember (info : ClassInfo) (memberName : String) (skipBaseClasses : Bool) :
    Option MemberInfo :=
  match lookupMemberIn info.ownMembers memberName with
  | some m => some m
  | none => if skipBaseClasses then none else lookupMemberIn info.inheritedMembers memberName

/-- Modelled from the spec: `typeUtils.lookUpObjectMember` — member lookup with
default flags (base classes included). -/
def lookUpObjectMember (info : ClassInfo) (memberName : String) : Option MemberInfo :=
  lookUpClassMember info memberName false

/-- The left-hand side of a call expression, as the walkers case on it. -/
inductive CalleeExpr where
  | nameExpr (n : NameNode)
  | memberAccessExpr (leftId : Nat) (memberName : NameNode)
  | otherExpr (nodeId : Nat)

/-- A call expression node. -/
structure CallNode where
  leftExpression : CalleeExpr

/-- A member-access expression node. -/
structure MemberAccessNode where
  leftId : Nat
  memberName : NameNode

/-- One visit produced by the depth-first tree walk: the two node kinds the
walkers override (`visitCall` / `visitMemberAccess`). -/
inductive VisitEvent where
  | call (node : CallNode)
  | memberAccess (node : MemberAccessNode)

/-- Modelled from the spec: the result of `ParseTreeUtils.getExecutionScopeNode`
— the nearest enclosing module, lambda, or named function scope. -/
inductive ExecScope where
  | module
  | lambda (start length : Nat)
  | functionScope (name : String) (nameStart nameLength : Nat)
deriving DecidableEq, Repr

/-- Modelled from the spec: a file's parse results.  The depth-first tree walk
performed by the external `ParseTreeWalker` base class (not under `src/`) is
represented by the sequence of call / member-access visits it produces for the
whole module tree. -/
structure ParseResults where
  moduleEvents : List VisitEvent

/-- A source file as the program host describes it. -/
structure SourceFileInfo where
  filePath : String
  isUserCodeFlag : Bool
  isOpenByClient : Bool
deriving DecidableEq, Repr

/-- Modelled from the spec: `sourceFileInfoUtils.isUserCode`. -/
def isUserCode (f : SourceFileInfo) : Bool :=
  f.isUserCodeFlag

/-- The result of `ReferencesProvider.getDeclarationForPosition`: the exact
node under the cursor, the candidate declarations, and the symbol names from
the original reference lookup. -/
structure ReferencesResult where
  nodeAtOffset : NameNode
  declarations : List Declaration
  symbolNames : List String

/-- Modelled from the spec: the external `TypeEvaluator` and symbol-collector
capabilities the provider consumes, as oracles fixed for one query. -/
structure TypeEvaluator where
  resolveAliasDeclaration : Declaration → Bool → Option Declaration
  getTypeForDeclaration : Declaration → Option PyType
  getTypeOfMember : MemberInfo → Option PyType
  getDeclarationsForNameNode : NameNode → Option (List Declaration)
  getTypeOfNode : Nat → Option PyType
  makeTopLevelTypeVarsConcrete : PyType → PyType
  symbolKindOf : Declaration → String → Option SymbolKind

/-- Modelled from the spec: the `ProgramView` host — files, parse trees, the
symbol collector, execution scopes, navigability and locator translation. -/
structure ProgramView where
  parseResultsOf : String → Option ParseResults
  sourceFileInfoList : List SourceFileInfo
  getSourceFileInfo : String → Option SourceFileInfo
  subtreeEvents : Nat → List VisitEvent
  collectorDeclarationsForNode : NameNode → Option (List Declaration)
  executionScopeOf : Nat → Option ExecScope
  navigable : String → Bool
  toUri : String → String

/-- One call-hierarchy query: the program snapshot, the querying file, the
"declaration at cursor" result for the query position, and the evaluator. -/
structure Env where
  program : ProgramView
  filePath : String
  evaluator : TypeEvaluator
  declarationResult : Option ReferencesResult

/-- A cancellation token: `some n` means the token becomes triggered at the
n-th cooperative cancellation check of the query (and stays triggered);
`none` means the query is never cancelled. -/
abbrev Token := Option Nat

/-- `throwIfCancellationRequested`'s test at check number `t`. -/
def isCancelled (tok : Token) (t : Nat) : Bool :=
  match tok with
  | none => false
  | some n => decide (n ≤ t)

/-- Modelled from the spec: `pathUtils.getFileName` — the last path
component. -/
def getFileName (p : String) : String :=
  (p.splitOn "/").getLastD p

/-! ## Anchor selection (`_getTargetDeclaration`) -/

/-- The candidate scan loop of `_getTargetDeclaration`: left-to-right over the
candidates, starting with the first candidate as the current target.  A
candidate `d` replaces the target when (`d` has a declared type OR the target
does not) AND `d` is a Function or Class; if such a replacing candidate's
defining node is exactly the node under the cursor, the loop breaks with it. -/
def selectTargetLoop (nodeId : Nat) : Declaration → List Declaration → Declaration
  | target, [] => target
  | target, d :: rest =>
    if hasTypeForDeclaration d || !hasTypeForDeclaration target then
      if d.type = DeclarationType.Function ∨ d.type = DeclarationType.Class then
        if d.node = nodeId then d
        else selectTargetLoop nodeId d rest
      else selectTargetLoop nodeId target rest
    else selectTargetLoop nodeId target rest

/-- The result triple of `_getTargetDeclaration`. -/
structure TargetInfo where
  targetDecl : Declaration
  callItemUri : String
  symbolName : String
deriving DecidableEq, Repr

/-- `_getTargetDeclaration`.  The source is only called with a non-empty
candidate list (its callers return early otherwise); the empty case is folded
into the `none` result here. -/
def getTargetDeclaration (env : Env) (rr : ReferencesResult) : Option TargetInfo :=
  match rr.declarations with
  | [] => none
  | d0 :: _ =>
    let targetDecl := selectTargetLoop rr.nodeAtOffset.nodeId d0 rr.declarations
    if targetDecl.type = DeclarationType.Alias then
      some { targetDecl, callItemUri := env.filePath, symbolName := rr.nodeAtOffset.value }
    else
      let fallback := rr.symbolNames.headD ""
      let symbolName :=
        match getNameFromDeclaration targetDecl with
        | some n => if n = "" then fallback else n
        | none => fallback
      some { targetDecl, callItemUri := targetDecl.path, symbolName }

/-! ## Call-record aggregation -/

/-- The occurrence range recorded for a call-site name node. -/
def nameRangeOf (n : NameNode) : Range :=
  convertOffsetsToRange n.start (n.start + n.length)

/-- The test `outgoing.to.uri === callDest.uri && rangesAreEqual(...)` used to
find an existing outgoing record. -/
def outKeyMatches (uri : String) (range : Range) (o : CallHierarchyOutgoingCall) : Bool :=
  decide (o.toItem.uri = uri) && rangesAreEqual o.toItem.range range

/-- The test used to find an existing incoming record. -/
def inKeyMatches (uri : String) (range : Range) (i : CallHierarchyIncomingCall) : Bool :=
  decide (i.frm.uri = uri) && rangesAreEqual i.frm.range range

/-- Functional rendering of mutating the first list entry satisfying `p`
(the source mutates the record returned by `Array.prototype.find`). -/
def updateFirst (p : α → Bool) (f : α → α) : List α → List α
  | [] => []
  | x :: xs => if p x then f x :: xs else x :: updateFirst p f xs

/-- The mutation applied to an existing outgoing record: rename it to the
resolved declaration's own name if its stored name differs from this
occurrence's literal text, then append the occurrence range. -/
def outUpdateRecord (resolvedDecl : Declaration) (nameNode : NameNode)
    (o : CallHierarchyOutgoingCall) : CallHierarchyOutgoingCall :=
  let o1 :=
    if o.toItem.name = nameNode.value then o
    else { o with toItem :=
      { o.toItem with
        name := (getNameFromDeclaration resolvedDecl).getD nameNode.value } }
  { o1 with fromRanges := o1.fromRanges ++ [nameRangeOf nameNode] }

/-- `_addOutgoingCallForDeclaration` of `FindOutgoingCallTreeWalker`: resolve
the declaration's aliases, discard non-Function/Class results, then merge into
the record keyed by the resolved declaration's (path, range) — renaming the
record to the resolved declaration's own name if the stored name differs from
this occurrence's literal text — and append the occurrence range. -/
def addOutgoingCallForDeclaration (env : Env) (nameNode : NameNode)
    (declaration : Declaration) (st : List CallHierarchyOutgoingCall) :
    List CallHierarchyOutgoingCall :=
  match env.evaluator.resolveAliasDeclaration declaration true with
  | none => st
  | some resolvedDecl =>
    if resolvedDecl.type = DeclarationType.Function ∨
        resolvedDecl.type = DeclarationType.Class then
      let callDest : CallHierarchyItem :=
        { name := nameNode.value
          kind := (env.evaluator.symbolKindOf resolvedDecl nameNode.value).getD SymbolKind.Module
          uri := resolvedDecl.path
          range := resolvedDecl.range
          selectionRange := resolvedDecl.range }
      if st.any (outKeyMatches callDest.uri callDest.range) then
        updateFirst (outKeyMatches callDest.uri callDest.range)
          (outUpdateRecord resolvedDecl nameNode) st
      else st ++ [{ toItem := callDest, fromRanges := [nameRangeOf nameNode] }]
    else st

/-- The item `_addIncomingCallForDeclaration` builds for an execution scope:
module scope, lambda scope, or named function scope. -/
def scopeItem (filePath : String) : ExecScope → CallHierarchyItem
  | .module =>
    { name := "(module) " ++ getFileName filePath
      kind := SymbolKind.Module
      uri := filePath
      range := convertOffsetsToRange 0 0
      selectionRange := convertOffsetsToRange 0 0 }
  | .lambda s l =>
    { name := "(lambda)"
      kind := SymbolKind.Function
      uri := filePath
      range := convertOffsetsToRange s (s + l)
      selectionRange := convertOffsetsToRange s (s + l) }
  | .functionScope nm ns nl =>
    { name := nm
      kind := SymbolKind.Function
      uri := filePath
      range := convertOffsetsToRange ns (ns + nl)
      selectionRange := convertOffsetsToRange ns (ns + nl) }

/-- The mutation applied to an existing incoming record: append the matched
occurrence's range. -/
def inUpdateRecord (nameNode : NameNode) (i : CallHierarchyIncomingCall) :
    CallHierarchyIncomingCall :=
  { i with fromRanges := i.fromRanges ++ [nameRangeOf nameNode] }

/-- `_addIncomingCallForDeclaration` of `FindIncomingCallTreeWalker`: find the
execution scope of the matched occurrence, merge into the record keyed by the
scope's (file, range), and append the occurrence range. -/
def addIncomingCallForDeclaration (env : Env) (filePath : String) (nameNode : NameNode)
    (st : List CallHierarchyIncomingCall) : List CallHierarchyIncomingCall :=
  match env.program.executionScopeOf nameNode.nodeId with
  | none => st
  | some scope =>
    let callSource := scopeItem filePath scope
    if st.any (inKeyMatches callSource.uri callSource.range) then
      updateFirst (inKeyMatches callSource.uri callSource.range)
        (inUpdateRecord nameNode) st
    else st ++ [{ frm := callSource, fromRanges := [nameRangeOf nameNode] }]

/-! ## Outgoing-call walker (`FindOutgoingCallTreeWalker`) -/

/-- The callee name-node extraction shared by both walkers: a bare-name callee,
or the rightmost member name of a member access. -/
def calleeNameNode (node : CallNode) : Option NameNode :=
  match node.leftExpression with
  | .nameExpr n => some n
  | .memberAccessExpr _ m => some m
  | .otherExpr _ => none

/-- `FindOutgoingCallTreeWalker.visitCall` minus its cancellation check:
resolve the callee name to its declarations and add an outgoing record for
each of them. -/
def outgoingVisitCall (env : Env) (node : CallNode)
    (st : List CallHierarchyOutgoingCall) : List CallHierarchyOutgoingCall :=
  match calleeNameNode node with
  | none => st
  | some nameNode =>
    match env.evaluator.getDeclarationsForNameNode nameNode with
    | none => st
    | some declarations =>
      declarations.foldl (fun st d => addOutgoingCallForDeclaration env nameNode d st) st

/-- `FindOutgoingCallTreeWalker.visitMemberAccess` minus its cancellation
check: for each concrete class-instance subtype of the left-hand type whose
member is a property, add an outgoing record per property declaration. -/
def outgoingVisitMemberAccess (env : Env) (node : MemberAccessNode)
    (st : List CallHierarchyOutgoingCall) : List CallHierarchyOutgoingCall :=
  match env.evaluator.getTypeOfNode node.leftId with
  | none => st
  | some leftHandType =>
    (subtypesOf leftHandType).foldl
      (fun st subtype =>
        match env.evaluator.makeTopLevelTypeVarsConcrete subtype with
        | PyType.classType info _ true _ =>
          match lookUpObjectMember info node.memberName.value with
          | none => st
          | some memberInfo =>
            match env.evaluator.getTypeOfMember memberInfo with
            | none => st
            | some memberType =>
              if isClassInstance memberType && isPropertyClass memberType then
                memberInfo.symbolDeclarations.foldl
                  (fun st d => addOutgoingCallForDeclaration env node.memberName d st) st
              else st
        | _ => st)
      st

/-- Dispatch one visited node to the outgoing walker's handler. -/
def applyOutgoingEvent (env : Env) (st : List CallHierarchyOutgoingCall) :
    VisitEvent → List CallHierarchyOutgoingCall
  | .call n => outgoingVisitCall env n st
  | .memberAccess m => outgoingVisitMemberAccess env m st

/-- The outgoing walk over the visit sequence, with the cooperative
cancellation check each visit performs; `t` numbers the checks. -/
def runOutgoingWalk (env : Env) (tok : Token) :
    List VisitEvent → Nat → List CallHierarchyOutgoingCall →
    Except Unit (List CallHierarchyOutgoingCall × Nat)
  | [], t, st => .ok (st, t)
  | e :: rest, t, st =>
    if isCancelled tok t then .error ()
    else runOutgoingWalk env tok rest (t + 1) (applyOutgoingEvent env st e)

/-- The records of an outgoing walk when no cancellation fires. -/
def outgoingFoldPure (env : Env) (evs : List VisitEvent) : List CallHierarchyOutgoingCall :=
  evs.foldl (applyOutgoingEvent env) []

/-! ## Incoming-call walker (`FindIncomingCallTreeWalker`) -/

/-- The decision part of `FindIncomingCallTreeWalker.visitCall`: the name node
passed to `_addIncomingCallForDeclaration`, if any.  The literal text must
equal the query's symbol name, and at least one declaration resolved for the
node must be structurally equal to the target declaration (resolving the
target first when it is an alias). -/
def incomingCallDecision (env : Env) (symbolName : String) (targetDecl : Declaration)
    (node : CallNode) : Option NameNode :=
  match calleeNameNode node with
  | none => none
  | some nameNode =>
    if nameNode.value = symbolName then
      match env.program.collectorDeclarationsForNode nameNode with
      | none => none
      | some declarations =>
        if targetDecl.type = DeclarationType.Alias then
          match env.evaluator.resolveAliasDeclaration targetDecl true with
          | none => none
          | some resolvedCurDecls =>
            if declarations.any (fun d => areDeclarationsSame d resolvedCurDecls) then
              some nameNode
            else none
        else if declarations.any (fun d => areDeclarationsSame d targetDecl) then
          some nameNode
        else none
    else none

/-- `FindIncomingCallTreeWalker.visitCall` minus its cancellation check,
translated directly from the source's nested conditionals. -/
def incomingVisitCall (env : Env) (filePath : String) (symbolName : String)
    (targetDecl : Declaration) (node : CallNode)
    (st : List CallHierarchyIncomingCall) : List CallHierarchyIncomingCall :=
  match calleeNameNode node with
  | none => st
  | some nameNode =>
    if nameNode.value = symbolName then
      match env.program.collectorDeclarationsForNode nameNode with
      | none => st
      | some declarations =>
        if targetDecl.type = DeclarationType.Alias then
          match env.evaluator.resolveAliasDeclaration targetDecl true with
          | none => st
          | some resolvedCurDecls =>
            if declarations.any (fun d => areDeclarationsSame d resolvedCurDecls) then
              addIncomingCallForDeclaration env filePath nameNode st
            else st
        else if declarations.any (fun d => areDeclarationsSame d targetDecl) then
          addIncomingCallForDeclaration env filePath nameNode st
        else st
    else st

/-- `FindIncomingCallTreeWalker.visitMemberAccess` minus its cancellation
check: a member access whose name matches counts as a call when some concrete
class-instance subtype of the left-hand type has a member whose declarations
include one structurally equal to the target declaration. -/
def incomingVisitMemberAccess (env : Env) (filePath : String) (symbolName : String)
    (targetDecl : Declaration) (node : MemberAccessNode)
    (st : List CallHierarchyIncomingCall) : List CallHierarchyIncomingCall :=
  if node.memberName.value = symbolName then
    match env.evaluator.getTypeOfNode node.leftId with
    | none => st
    | some leftHandType =>
      (subtypesOf leftHandType).foldl
        (fun st subtype =>
          match env.evaluator.makeTopLevelTypeVarsConcrete subtype with
          | PyType.classType info _ true _ =>
            match lookUpObjectMember info node.memberName.value with
            | none => st
            | some memberInfo =>
              match env.evaluator.getTypeOfMember memberInfo with
              | none => st
              | some _ =>
                if memberInfo.symbolDeclarations.any
                    (fun d => areDeclarationsSame d targetDecl) then
                  addIncomingCallForDeclaration env filePath node.memberName st
                else st
          | _ => st)
        st
  else st

/-- Dispatch one visited node to the incoming walker's handler. -/
def applyIncomingEvent (env : Env) (filePath : String) (symbolName : String)
    (targetDecl : Declaration) (st : List CallHierarchyIncomingCall) :
    VisitEvent → List CallHierarchyIncomingCall
  | .call n => incomingVisitCall env filePath symbolName targetDecl n st
  | .memberAccess m => incomingVisitMemberAccess env filePath symbolName targetDecl m st

/-- The incoming walk over one file's visit sequence, with per-visit
cancellation checks. -/
def runIncomingWalk (env : Env) (filePath : String) (symbolName : String)
    (targetDecl : Declaration) (tok : Token) :
    List VisitEvent → Nat → List CallHierarchyIncomingCall →
    Except Unit (List CallHierarchyIncomingCall × Nat)
  | [], t, st => .ok (st, t)
  | e :: rest, t, st =>
    if isCancelled tok t then .error ()
    else runIncomingWalk env filePath symbolName targetDecl tok rest (t + 1)
      (applyIncomingEvent env filePath symbolName targetDecl st e)

/-- The records of one file's incoming walk when no cancellation fires. -/
def incomingFoldPure (env : Env) (filePath : String) (symbolName : String)
    (targetDecl : Declaration) (evs : List VisitEvent) : List CallHierarchyIncomingCall :=
  evs.foldl (applyIncomingEvent env filePath symbolName targetDecl) []

/-! ## The provider's public operations -/

/-- The file list `getIncomingCalls` iterates: for an alias target only the
querying file, otherwise every file the program holds. -/
def getIncomingFiles (env : Env) (targetDecl : Declaration) : List SourceFileInfo :=
  if targetDecl.type = DeclarationType.Alias then
    match env.program.getSourceFileInfo env.filePath with
    | some info => [info]
    | none => []
  else env.program.sourceFileInfoList

/-- The per-file loop of `getIncomingCalls`: each file passing the
user-code-or-open test runs `_getIncomingCallsForDeclaration` (one cancellation
check, then the walk) and its records are appended.  A file whose parse results
are absent is skipped — the source asserts their presence (`!`), which the host
contract guarantees for files it lists. -/
def runIncomingScan (env : Env) (symbolName : String) (targetDecl : Declaration)
    (tok : Token) :
    List SourceFileInfo → Nat → List CallHierarchyIncomingCall →
    Except Unit (List CallHierarchyIncomingCall × Nat)
  | [], t, items => .ok (items, t)
  | f :: rest, t, items =>
    if isUserCode f || f.isOpenByClient then
      if isCancelled tok t then .error ()
      else
        match env.program.parseResultsOf f.filePath with
        | none => runIncomingScan env symbolName targetDecl tok rest (t + 1) items
        | some pr =>
          match runIncomingWalk env f.filePath symbolName targetDecl tok
              pr.moduleEvents (t + 1) [] with
          | .error () => .error ()
          | .ok (fileItems, t') =>
            runIncomingScan env symbolName targetDecl tok rest t' (items ++ fileItems)
    else runIncomingScan env symbolName targetDecl tok rest t items

/-- The navigability filter and locator adaptation of `getOutgoingCalls`. -/
def adaptOutgoing (env : Env) (calls : List CallHierarchyOutgoingCall) :
    List CallHierarchyOutgoingCall :=
  (calls.filter (fun i => env.program.navigable i.toItem.uri)).map
    (fun i => { i with toItem := { i.toItem with uri := env.program.toUri i.toItem.uri } })

/-- The navigability filter and locator adaptation of `getIncomingCalls`. -/
def adaptIncoming (env : Env) (calls : List CallHierarchyIncomingCall) :
    List CallHierarchyIncomingCall :=
  (calls.filter (fun i => env.program.navigable i.frm.uri)).map
    (fun i => { i with frm := { i.frm with uri := env.program.toUri i.frm.uri } })

/-- The item construction, navigability gate and locator adaptation at the end
of `onPrepare`. -/
def prepareItem (env : Env) (tinfo : TargetInfo) :
    Except Unit (Option (List CallHierarchyItem)) :=
  let callItem : CallHierarchyItem :=
    { name := tinfo.symbolName
      kind := (env.evaluator.symbolKindOf tinfo.targetDecl tinfo.symbolName).getD
        SymbolKind.Module
      uri := tinfo.callItemUri
      range := tinfo.targetDecl.range
      selectionRange := tinfo.targetDecl.range }
  if env.program.navigable callItem.uri then
    .ok (some [{ callItem with uri := env.program.toUri callItem.uri }])
  else .ok none

/-- `onPrepare`: cancellation check, parse-results and declaration gates,
anchor selection, the Function/Class/Alias eligibility gate (aliases must
resolve to a Function or Class), then the single call-hierarchy item. -/
def onPrepare (env : Env) (tok : Token) (t : Nat) :
    Except Unit (Option (List CallHierarchyItem)) :=
  if isCancelled tok t then .error ()
  else
    match env.program.parseResultsOf env.filePath with
    | none => .ok none
    | some _ =>
      match env.declarationResult with
      | none => .ok none
      | some rr =>
        match getTargetDeclaration env rr with
        | none => .ok none
        | some tinfo =>
          if tinfo.targetDecl.type = DeclarationType.Function ∨
              tinfo.targetDecl.type = DeclarationType.Class ∨
              tinfo.targetDecl.type = DeclarationType.Alias then
            if tinfo.targetDecl.type = DeclarationType.Alias then
              match env.evaluator.resolveAliasDeclaration tinfo.targetDecl true with
              | none => .ok none
              | some resolvedDecl =>
                if resolvedDecl.type = DeclarationType.Function ∨
                    resolvedDecl.type = DeclarationType.Class then
                  prepareItem env tinfo
                else .ok none
            else prepareItem env tinfo
          else .ok none

/-- `getIncomingCalls`: cancellation check, parse-results and declaration
gates, anchor selection (no kind gate), the per-file scan, the emptiness gate,
then navigability filtering and locator adaptation. -/
def getIncomingCalls (env : Env) (tok : Token) (t : Nat) :
    Except Unit (Option (List CallHierarchyIncomingCall)) :=
  if isCancelled tok t then .error ()
  else
    match env.program.parseResultsOf env.filePath with
    | none => .ok none
    | some _ =>
      match env.declarationResult with
      | none => .ok none
      | some rr =>
        match getTargetDeclaration env rr with
        | none => .ok none
        | some tinfo =>
          match runIncomingScan env tinfo.symbolName tinfo.targetDecl tok
              (getIncomingFiles env tinfo.targetDecl) (t + 1) [] with
          | .error () => .error ()
          | .ok (items, _) =>
            if items.isEmpty then .ok none
            else .ok (some (adaptIncoming env items))

/-- The walk root `getOutgoingCalls` selects: the resolved function's node, or
— for a class — the node of the first declaration of the class's own
`__init__` member (base classes explicitly skipped), provided that member's
type is a function. -/
def outgoingParseRoot (env : Env) (resolvedDecl : Declaration) : Option Nat :=
  if resolvedDecl.type = DeclarationType.Function then some resolvedDecl.node
  else if resolvedDecl.type = DeclarationType.Class then
    match env.evaluator.getTypeForDeclaration resolvedDecl with
    | none => none
    | some classType =>
      if isInstantiableClass classType then
        match classType with
        | PyType.classType info _ _ _ =>
          match lookUpClassMember info "__init__" true with
          | none => none
          | some initMethodMember =>
            match env.evaluator.getTypeOfMember initMethodMember with
            | none => none
            | some initMethodType =>
              if isFunction initMethodType then
                match initMethodMember.symbolDeclarations with
                | [] => none
                | primaryInitDecl :: _ =>
                  if primaryInitDecl.type = DeclarationType.Function then
                    some primaryInitDecl.node
                  else none
              else none
        | _ => none
      else none
  else none

/-- `getOutgoingCalls`: cancellation check, parse-results and declaration
gates, anchor selection, full alias resolution, walk-root selection, the
outgoing walk, the emptiness gate, then navigability filtering and locator
adaptation. -/
def getOutgoingCalls (env : Env) (tok : Token) (t : Nat) :
    Except Unit (Option (List CallHierarchyOutgoingCall)) :=
  if isCancelled tok t then .error ()
  else
    match env.program.parseResultsOf env.filePath with
    | none => .ok none
    | some _ =>
      match env.declarationResult with
      | none => .ok none
      | some rr =>
        match getTargetDeclaration env rr with
        | none => .ok none
        | some tinfo =>
          match env.evaluator.resolveAliasDeclaration tinfo.targetDecl true with
          | none => .ok none
          | some resolvedDecl =>
            match outgoingParseRoot env resolvedDecl with
            | none => .ok none
            | some parseRoot =>
              match runOutgoingWalk env tok (env.program.subtreeEvents parseRoot)
                  (t + 1) [] with
              | .error () => .error ()
              | .ok (outgoingCalls, _) =>
                if outgoingCalls.isEmpty then .ok none
                else .ok (some (adaptOutgoing env outgoingCalls))

/-! ## Pure views of the walks (no cancellation in flight) -/

/-- The records of the whole per-file scan when no cancellation fires. -/
def incomingScanPure (env : Env) (symbolName : String) (targetDecl : Declaration) :
    List SourceFileInfo → List CallHierarchyIncomingCall → List CallHierarchyIncomingCall
  | [], items => items
  | f :: rest, items =>
    if isUserCode f || f.isOpenByClient then
      match env.program.parseResultsOf f.filePath with
      | none => incomingScanPure env symbolName targetDecl rest items
      | some pr =>
        incomingScanPure env symbolName targetDecl rest
          (items ++ incomingFoldPure env f.filePath symbolName targetDecl pr.moduleEvents)
    else incomingScanPure env symbolName targetDecl rest items

theorem isCancelled_none (t : Nat) : isCancelled none t = false := rfl

theorem runOutgoingWalk_none (env : Env) (evs : List VisitEvent) :
    ∀ (t : Nat) (st : List CallHierarchyOutgoingCall),
      ∃ t', runOutgoingWalk env none evs t st =
        .ok (evs.foldl (applyOutgoingEvent env) st, t') := by
  induction evs with
  | nil => intro t st; exact ⟨t, rfl⟩
  | cons e rest ih =>
    intro t st
    obtain ⟨t', h⟩ := ih (t + 1) (applyOutgoingEvent env st e)
    exact ⟨t', by simp [runOutgoingWalk, isCancelled, h, List.foldl]⟩

theorem runIncomingWalk_none (env : Env) (filePath symbolName : String)
    (targetDecl : Declaration) (evs : List VisitEvent) :
    ∀ (t : Nat) (st : List CallHierarchyIncomingCall),
      ∃ t', runIncomingWalk env filePath symbolName targetDecl none evs t st =
        .ok (evs.foldl (applyIncomingEvent env filePath symbolName targetDecl) st, t') := by
  induction evs with
  | nil => intro t st; exact ⟨t, rfl⟩
  | cons e rest ih =>
    intro t st
    obtain ⟨t', h⟩ := ih (t + 1) (applyIncomingEvent env filePath symbolName targetDecl st e)
    exact ⟨t', by simp [runIncomingWalk, isCancelled, h, List.foldl]⟩

theorem runIncomingScan_none (env : Env) (symbolName : String) (targetDecl : Declaration)
    (files : List SourceFileInfo) :
    ∀ (t : Nat) (items : List CallHierarchyIncomingCall),
      ∃ t', runIncomingScan env symbolName targetDecl none files t items =
        .ok (incomingScanPure env symbolName targetDecl files items, t') := by
  induction files with
  | nil => intro t items; exact ⟨t, rfl⟩
  | cons f rest ih =>
    intro t items
    by_cases hg : (isUserCode f || f.isOpenByClient) = true
    · cases hp : env.program.parseResultsOf f.filePath with
      | none =>
        obtain ⟨t', h⟩ := ih (t + 1) items
        exact ⟨t', by simp [runIncomingScan, incomingScanPure, isCancelled, hg, hp, h]⟩
      | some pr =>
        obtain ⟨tw, hw⟩ := runIncomingWalk_none env f.filePath symbolName targetDecl
          pr.moduleEvents (t + 1) []
        obtain ⟨t', h⟩ := ih tw
          (items ++ incomingFoldPure env f.filePath symbolName targetDecl pr.moduleEvents)
        refine ⟨t', ?_⟩
        simp [runIncomingScan, incomingScanPure, isCancelled, hg, hp, hw,
          incomingFoldPure] at h ⊢
        exact h
    · obtain ⟨t', h⟩ := ih t items
      exact ⟨t', by simp [runIncomingScan, incomingScanPure, hg, h]⟩

/-! ## List helper lemmas -/

theorem foldl_preserve {f : β → α → β} {P : β → Prop}
    (hf : ∀ st x, P st → P (f st x)) :
    ∀ (l : List α) (init : β), P init → P (l.foldl f init) := by
  intro l
  induction l with
  | nil => intro init h; exact h
  | cons x xs ih => intro init h; exact ih (f init x) (hf init x h)

theorem updateFirst_map {p : α → Bool} {f : α → α} {g : α → β}
    (hg : ∀ x, g (f x) = g x) :
    ∀ l : List α, (updateFirst p f l).map g = l.map g := by
  intro l
  induction l with
  | nil => rfl
  | cons x xs ih =>
    by_cases hx : p x = true
    · simp [updateFirst, hx, hg]
    · simp [updateFirst, hx, ih]

theorem find?_updateFirst_self {p : α → Bool} {f : α → α}
    (hpf : ∀ x, p (f x) = p x) :
    ∀ l : List α, (updateFirst p f l).find? p = (l.find? p).map f := by
  intro l
  induction l with
  | nil => rfl
  | cons x xs ih =>
    by_cases hx : p x = true
    · simp [updateFirst, hx, List.find?, hpf]
    · simp [updateFirst, hx, List.find?, ih]

theorem find?_updateFirst_other {p q : α → Bool} {f : α → α}
    (hqf : ∀ x, q (f x) = q x) (hdisj : ∀ x, p x = true → q x = true → False) :
    ∀ l : List α, (updateFirst p f l).find? q = l.find? q := by
  intro l
  induction l with
  | nil => rfl
  | cons x xs ih =>
    by_cases hx : p x = true
    · have hq : q x = false := by
        cases hqx : q x with
        | false => rfl
        | true => exact absurd (hdisj x hx hqx) (fun h => h)
      simp [updateFirst, hx, List.find?, hqf, hq]
    · cases hq : q x with
      | false => simp [updateFirst, hx, List.find?, hq, ih]
      | true => simp [updateFirst, hx, List.find?, hq]

theorem find?_append_cases (p : α → Bool) (l l' : List α) :
    (l ++ l').find? p =
      match l.find? p with
      | some x => some x
      | none => l'.find? p := by
  induction l with
  | nil => simp
  | cons x xs ih =>
    cases hx : p x with
    | true => simp [List.find?, hx]
    | false => simp [List.find?, hx, ih]

theorem find?_eq_none_of_any_eq_false {p : α → Bool} {l : List α}
    (h : l.any p = false) : l.find? p = none := by
  rw [List.find?_eq_none]
  intro x hx hp
  have : l.any p = true := List.any_eq_true.mpr ⟨x, hx, hp⟩
  rw [h] at this
  exact Bool.false_ne_true this

/-! ## C1: anchor selection -/

/-- The anchor-selection scan exactly as claim C1 states it: the exact-node
short-circuit stops the scan and selects the candidate regardless of whether
that candidate passes the replacement test. -/
def claimSelectTarget (nodeId : Nat) : Declaration → List Declaration → Declaration
  | target, [] => target
  | target, d :: rest =>
    if d.node = nodeId then d
    else if (hasTypeForDeclaration d || !hasTypeForDeclaration target)
        ∧ (d.type = DeclarationType.Function ∨ d.type = DeclarationType.Class) then
      claimSelectTarget nodeId d rest
    else claimSelectTarget nodeId target rest

/-- The amended anchor-selection rule: candidate `d` replaces the target when
(`d` has a declared type OR the target does not) AND `d` is a Function or
Class, and the scan stops early only when such a replacing candidate's
defining node is exactly the occurrence node under the cursor. -/
def amendedSelectTarget (nodeId : Nat) : Declaration → List Declaration → Declaration
  | target, [] => target
  | target, d :: rest =>
    if (hasTypeForDeclaration d || !hasTypeForDeclaration target)
        ∧ (d.type = DeclarationType.Function ∨ d.type = DeclarationType.Class) then
      if d.node = nodeId then d else amendedSelectTarget nodeId d rest
    else amendedSelectTarget nodeId target rest

theorem selectTargetLoop_eq_amended (nodeId : Nat) (decls : List Declaration) :
    ∀ target, selectTargetLoop nodeId target decls = amendedSelectTarget nodeId target decls := by
  induction decls with
  | nil => intro target; rfl
  | cons d rest ih =>
    intro target
    simp only [selectTargetLoop, amendedSelectTarget]
    by_cases h1 : (hasTypeForDeclaration d || !hasTypeForDeclaration target) = true
    · by_cases h2 : d.type = DeclarationType.Function ∨ d.type = DeclarationType.Class
      · by_cases h3 : d.node = nodeId
        · simp [h1, h2, h3]
        · simp [h1, h2, h3, ih]
      · simp [h1, h2, ih]
    · simp [h1, ih]

/-- A typed Function candidate that is not the cursor node, followed by a
Variable declaration whose defining node is exactly the cursor node. -/
def c1declA : Declaration :=
  { type := DeclarationType.Function, path := "a.py", range := ⟨0, 5⟩, node := 1,
    hasDeclaredTypeFlag := true, name := some "a" }

/-- The exact-node Variable candidate of the C1 counterexample. -/
def c1declB : Declaration :=
  { type := DeclarationType.Variable, path := "a.py", range := ⟨10, 15⟩, node := 0,
    hasDeclaredTypeFlag := false, name := some "b" }

/-- C1 counterexample: candidate `c1declB`'s defining node is exactly the
occurrence node (id 0), yet the source's scan neither stops at it nor selects
it — it keeps `c1declA` — while the scan described by the claim selects
`c1declB`. -/
theorem c1_counterexample :
    selectTargetLoop 0 c1declA [c1declA, c1declB] = c1declA ∧
    claimSelectTarget 0 c1declA [c1declA, c1declB] = c1declB ∧
    c1declB.node = 0 ∧ c1declA ≠ c1declB := by
  decide

/-- A references result whose candidates are `c1declA, c1declB` with the
cursor on node 0. -/
def c1rr : ReferencesResult :=
  { nodeAtOffset := ⟨0, "x", 20, 1⟩, declarations := [c1declA, c1declB],
    symbolNames := ["x"] }

/-- An evaluator whose alias resolution is the identity and whose other
oracles are empty. -/
def trivialEvaluator : TypeEvaluator :=
  { resolveAliasDeclaration := fun d _ => some d
    getTypeForDeclaration := fun _ => none
    getTypeOfMember := fun _ => none
    getDeclarationsForNameNode := fun _ => none
    getTypeOfNode := fun _ => none
    makeTopLevelTypeVarsConcrete := fun t => t
    symbolKindOf := fun _ _ => none }

/-- A program host with no files. -/
def emptyProgram : ProgramView :=
  { parseResultsOf := fun _ => none
    sourceFileInfoList := []
    getSourceFileInfo := fun _ => none
    subtreeEvents := fun _ => []
    collectorDeclarationsForNode := fun _ => none
    executionScopeOf := fun _ => none
    navigable := fun _ => true
    toUri := fun s => s }

/-- The query environment of the C1 witness. -/
def c1env : Env :=
  { program := emptyProgram, filePath := "a.py", evaluator := trivialEvaluator,
    declarationResult := some c1rr }

/-- C1 (amended): anchor selection is a single left-to-right pass starting
with the first candidate; candidate `d` replaces the current target exactly
when (`d` has a declared type OR the target does not) AND `d`'s kind is
Function or Class; the scan stops early only at a replacing candidate whose
defining node is exactly the occurrence node under the cursor, which then
becomes the target. -/
theorem c1_anchor_selection_amended :
    (∀ (nodeId : Nat) (target : Declaration) (decls : List Declaration),
      selectTargetLoop nodeId target decls = amendedSelectTarget nodeId target decls) ∧
    (∀ (env : Env) (rr : ReferencesResult) (tinfo : TargetInfo),
      getTargetDeclaration env rr = some tinfo →
      ∃ d0 rest, rr.declarations = d0 :: rest ∧
        tinfo.targetDecl = amendedSelectTarget rr.nodeAtOffset.nodeId d0 (d0 :: rest)) := by
  constructor
  · intro nodeId target decls
    exact selectTargetLoop_eq_amended nodeId decls target
  · intro env rr tinfo h
    cases hd : rr.declarations with
    | nil => simp [getTargetDeclaration, hd] at h
    | cons d0 rest =>
      refine ⟨d0, rest, rfl, ?_⟩
      rw [← selectTargetLoop_eq_amended]
      simp only [getTargetDeclaration, hd] at h
      by_cases ha :
          (selectTargetLoop rr.nodeAtOffset.nodeId d0 (d0 :: rest)).type =
            DeclarationType.Alias
      · simp only [ha, if_true] at h
        cases h
        rfl
      · simp only [ha, if_false] at h
        cases h
        rfl

/-- C1 witness: the amended rule applied to the concrete candidate list
`[c1declA, c1declB]`. -/
theorem c1_witness :
    ∃ d0 rest, c1rr.declarations = d0 :: rest ∧
      (TargetInfo.mk c1declA "a.py" "a").targetDecl =
        amendedSelectTarget c1rr.nodeAtOffset.nodeId d0 (d0 :: rest) :=
  c1_anchor_selection_amended.2 c1env c1rr (TargetInfo.mk c1declA "a.py" "a") (by decide)

/-! ## C2: class targets walk only the class's own constructor -/

theorem lookUpClassMember_skipBases (info : ClassInfo) (memberName : String) :
    lookUpClassMember info memberName true = lookupMemberIn info.ownMembers memberName := by
  unfold lookUpClassMember
  cases lookupMemberIn info.ownMembers memberName <;> simp

/-- C2: a query whose resolved target is a class walks only the node of the
class's own directly-declared `__init__`; when the class's own member table
has no `__init__`, `getOutgoingCalls` returns null — whatever the inherited
member table contains. -/
theorem c2_class_own_constructor :
    (∀ (env : Env) (t : Nat) (pr : ParseResults) (rr : ReferencesResult)
        (tinfo : TargetInfo) (rd : Declaration) (info : ClassInfo) (inst iInst iProp : Bool),
      env.program.parseResultsOf env.filePath = some pr →
      env.declarationResult = some rr →
      getTargetDeclaration env rr = some tinfo →
      env.evaluator.resolveAliasDeclaration tinfo.targetDecl true = some rd →
      rd.type = DeclarationType.Class →
      env.evaluator.getTypeForDeclaration rd =
        some (PyType.classType info inst iInst iProp) →
      lookupMemberIn info.ownMembers "__init__" = none →
      getOutgoingCalls env none t = .ok none) ∧
    (∀ (env : Env) (rd : Declaration) (n : Nat),
      rd.type ≠ DeclarationType.Function →
      outgoingParseRoot env rd = some n →
      ∃ info inst iInst iProp mi d rest,
        env.evaluator.getTypeForDeclaration rd =
          some (PyType.classType info inst iInst iProp) ∧
        lookupMemberIn info.ownMembers "__init__" = some mi ∧
        mi.symbolDeclarations = d :: rest ∧
        d.type = DeclarationType.Function ∧ d.node = n) := by
  constructor
  · intro env t pr rr tinfo rd info inst iInst iProp h1 h2 h3 h4 h5 h6 h7
    have hroot : outgoingParseRoot env rd = none := by
      unfold outgoingParseRoot
      rw [h5]
      cases inst <;>
        simp [h5, h6, lookUpClassMember_skipBases, h7, isInstantiableClass]
    simp [getOutgoingCalls, isCancelled, h1, h2, h3, h4, hroot]
  · intro env rd n hne h
    unfold outgoingParseRoot at h
    rw [if_neg hne] at h
    by_cases hc : rd.type = DeclarationType.Class
    · rw [if_pos hc] at h
      cases hty : env.evaluator.getTypeForDeclaration rd with
      | none => rw [hty] at h; exact absurd h (by simp)
      | some ty =>
        rw [hty] at h
        cases ty with
        | classType info inst iInst iProp =>
          dsimp only at h
          by_cases hinst : isInstantiableClass (PyType.classType info inst iInst iProp) = true
          · rw [if_pos hinst] at h
            simp only [lookUpClassMember_skipBases] at h
            cases hmi : lookupMemberIn info.ownMembers "__init__" with
            | none => rw [hmi] at h; exact absurd h (by simp)
            | some mi =>
              rw [hmi] at h
              dsimp only at h
              cases hmt : env.evaluator.getTypeOfMember mi with
              | none => rw [hmt] at h; exact absurd h (by simp)
              | some mt =>
                rw [hmt] at h
                dsimp only at h
                by_cases hfn : isFunction mt = true
                · rw [if_pos hfn] at h
                  cases hds : mi.symbolDeclarations with
                  | nil => rw [hds] at h; exact absurd h (by simp)
                  | cons d rest =>
                    rw [hds] at h
                    dsimp only at h
                    by_cases hdf : d.type = DeclarationType.Function
                    · rw [if_pos hdf] at h
                      refine ⟨info, inst, iInst, iProp, mi, d, rest, rfl, hmi, hds, hdf, ?_⟩
                      cases h
                      rfl
                    · rw [if_neg hdf] at h; exact absurd h (by simp)
                · rw [if_neg hfn] at h; exact absurd h (by simp)
          · rw [if_neg hinst] at h; exact absurd h (by simp)
        | functionType => simp at h
        | unionType ts => simp at h
        | otherType => simp at h
    · rw [if_neg hc] at h; exact absurd h (by simp)

/-- The class declaration used by the C2 witnesses. -/
def c2classDecl : Declaration :=
  { type := DeclarationType.Class, path := "b.py", range := ⟨100, 140⟩, node := 30,
    hasDeclaredTypeFlag := true, name := some "C" }

/-- An inherited `__init__` declaration living in another module. -/
def c2inheritedInit : Declaration :=
  { type := DeclarationType.Function, path := "base.py", range := ⟨0, 10⟩, node := 99,
    hasDeclaredTypeFlag := true, name := some "__init__" }

/-- The class's own `__init__` declaration (second witness environment). -/
def c2ownInit : Declaration :=
  { type := DeclarationType.Function, path := "b.py", range := ⟨110, 130⟩, node := 35,
    hasDeclaredTypeFlag := true, name := some "__init__" }

/-- Member tables: no own `__init__`, but an inherited one. -/
def c2infoNoOwn : ClassInfo :=
  { ownMembers := [], inheritedMembers := [("__init__", ⟨[c2inheritedInit]⟩)] }

/-- Member tables: an own `__init__`. -/
def c2infoOwn : ClassInfo :=
  { ownMembers := [("__init__", ⟨[c2ownInit]⟩)], inheritedMembers := [] }

/-- The references result of the C2 witnesses (cursor on the class). -/
def c2rr : ReferencesResult :=
  { nodeAtOffset := ⟨30, "C", 100, 1⟩, declarations := [c2classDecl],
    symbolNames := ["C"] }

/-- Evaluator whose type oracle gives the class the member tables `info`. -/
def c2evaluator (info : ClassInfo) : TypeEvaluator :=
  { resolveAliasDeclaration := fun d _ => some d
    getTypeForDeclaration := fun d =>
      if d = c2classDecl then some (PyType.classType info true false false) else none
    getTypeOfMember := fun _ => some PyType.functionType
    getDeclarationsForNameNode := fun _ => none
    getTypeOfNode := fun _ => none
    makeTopLevelTypeVarsConcrete := fun t => t
    symbolKindOf := fun _ _ => none }

/-- Program host holding the single file `b.py` with an empty body. -/
def c2program : ProgramView :=
  { parseResultsOf := fun _ => some ⟨[]⟩
    sourceFileInfoList := [⟨"b.py", true, false⟩]
    getSourceFileInfo := fun _ => none
    subtreeEvents := fun _ => []
    collectorDeclarationsForNode := fun _ => none
    executionScopeOf := fun _ => none
    navigable := fun _ => true
    toUri := fun s => s }

/-- The C2 environment without an own constructor. -/
def c2envNoOwn : Env :=
  { program := c2program, filePath := "b.py", evaluator := c2evaluator c2infoNoOwn,
    declarationResult := some c2rr }

/-- The C2 environment with an own constructor. -/
def c2envOwn : Env :=
  { program := c2program, filePath := "b.py", evaluator := c2evaluator c2infoOwn,
    declarationResult := some c2rr }

/-- C2 witness: with no own `__init__` (but an inherited one) the query
returns null; with an own `__init__` the selected walk root is that member's
first declaration node. -/
theorem c2_witness :
    getOutgoingCalls c2envNoOwn none 0 = .ok none ∧
    (∃ info inst iInst iProp mi d rest,
      c2envOwn.evaluator.getTypeForDeclaration c2classDecl =
        some (PyType.classType info inst iInst iProp) ∧
      lookupMemberIn info.ownMembers "__init__" = some mi ∧
      mi.symbolDeclarations = d :: rest ∧
      d.type = DeclarationType.Function ∧ d.node = 35) :=
  ⟨c2_class_own_constructor.1 c2envNoOwn 0 ⟨[]⟩ c2rr
      ⟨c2classDecl, "b.py", "C"⟩ c2classDecl c2infoNoOwn true false false
      rfl rfl (by decide) rfl (by decide) rfl rfl,
    c2_class_own_constructor.2 c2envOwn c2classDecl 35 (by decide) rfl⟩

/-! ## C3: aggregation keys and range lists -/

/-- The aggregation key of an outgoing record: the callee's (file, range). -/
def outKey (o : CallHierarchyOutgoingCall) : String × Range :=
  (o.toItem.uri, o.toItem.range)

/-- The aggregation keys of an outgoing record list, in order. -/
def outKeys (st : List CallHierarchyOutgoingCall) : List (String × Range) :=
  st.map outKey

/-- The aggregation key of an incoming record: the caller scope's
(file, range). -/
def inKey (i : CallHierarchyIncomingCall) : String × Range :=
  (i.frm.uri, i.frm.range)

/-- The aggregation keys of an incoming record list, in order. -/
def inKeys (st : List CallHierarchyIncomingCall) : List (String × Range) :=
  st.map inKey

/-- The key under which `_addOutgoingCallForDeclaration` files a declaration,
when it files it at all. -/
def outgoingAddKey (env : Env) (declaration : Declaration) : Option (String × Range) :=
  match env.evaluator.resolveAliasDeclaration declaration true with
  | none => none
  | some rd =>
    if rd.type = DeclarationType.Function ∨ rd.type = DeclarationType.Class then
      some (rd.path, rd.range)
    else none

/-- The key under which `_addIncomingCallForDeclaration` files an occurrence,
when it files it at all. -/
def incomingAddKey (env : Env) (filePath : String) (n : NameNode) :
    Option (String × Range) :=
  (env.program.executionScopeOf n.nodeId).map
    (fun scope => ((scopeItem filePath scope).uri, (scopeItem filePath scope).range))

/-- The range list stored at a key in an outgoing record list. -/
def outRangesAt (key : String × Range) (st : List CallHierarchyOutgoingCall) : List Range :=
  match st.find? (outKeyMatches key.1 key.2) with
  | none => []
  | some o => o.fromRanges

/-- The range list stored at a key in an incoming record list. -/
def inRangesAt (key : String × Range) (st : List CallHierarchyIncomingCall) : List Range :=
  match st.find? (inKeyMatches key.1 key.2) with
  | none => []
  | some i => i.fromRanges

theorem outKeyMatches_iff (u : String) (r : Range) (o : CallHierarchyOutgoingCall) :
    outKeyMatches u r o = true ↔ outKey o = (u, r) := by
  simp [outKeyMatches, outKey, rangesAreEqual, Prod.ext_iff]

theorem inKeyMatches_iff (u : String) (r : Range) (i : CallHierarchyIncomingCall) :
    inKeyMatches u r i = true ↔ inKey i = (u, r) := by
  simp [inKeyMatches, inKey, rangesAreEqual, Prod.ext_iff]

theorem outKey_outUpdateRecord (rd : Declaration) (n : NameNode)
    (o : CallHierarchyOutgoingCall) : outKey (outUpdateRecord rd n o) = outKey o := by
  by_cases h : o.toItem.name = n.value <;> simp [outUpdateRecord, outKey, h]

theorem fromRanges_outUpdateRecord (rd : Declaration) (n : NameNode)
    (o : CallHierarchyOutgoingCall) :
    (outUpdateRecord rd n o).fromRanges = o.fromRanges ++ [nameRangeOf n] := by
  by_cases h : o.toItem.name = n.value <;> simp [outUpdateRecord, h]

theorem inKey_inUpdateRecord (n : NameNode) (i : CallHierarchyIncomingCall) :
    inKey (inUpdateRecord n i) = inKey i := by
  simp [inUpdateRecord, inKey]

theorem outKeyMatches_outUpdateRecord (u : String) (r : Range) (rd : Declaration)
    (n : NameNode) (o : CallHierarchyOutgoingCall) :
    outKeyMatches u r (outUpdateRecord rd n o) = outKeyMatches u r o := by
  by_cases h : o.toItem.name = n.value <;>
    simp [outUpdateRecord, outKeyMatches, h]

theorem inKeyMatches_inUpdateRecord (u : String) (r : Range) (n : NameNode)
    (i : CallHierarchyIncomingCall) :
    inKeyMatches u r (inUpdateRecord n i) = inKeyMatches u r i := by
  simp [inUpdateRecord, inKeyMatches]

theorem find?_some_of_any {p : α → Bool} {l : List α} (h : l.any p = true) :
    ∃ x, l.find? p = some x := by
  cases hf : l.find? p with
  | none =>
    rw [List.find?_eq_none] at hf
    obtain ⟨x, hx, hp⟩ := List.any_eq_true.mp h
    exact absurd hp (hf x hx)
  | some o => exact ⟨o, rfl⟩

theorem not_mem_outKeys_of_any_false {st : List CallHierarchyOutgoingCall}
    {u : String} {r : Range} (h : ¬st.any (outKeyMatches u r) = true) :
    (u, r) ∉ outKeys st := by
  intro hmem
  obtain ⟨o, ho, hk⟩ := List.mem_map.mp hmem
  exact h (List.any_eq_true.mpr ⟨o, ho, (outKeyMatches_iff u r o).mpr hk⟩)

theorem not_mem_inKeys_of_any_false {st : List CallHierarchyIncomingCall}
    {u : String} {r : Range} (h : ¬st.any (inKeyMatches u r) = true) :
    (u, r) ∉ inKeys st := by
  intro hmem
  obtain ⟨i, hi, hk⟩ := List.mem_map.mp hmem
  exact h (List.any_eq_true.mpr ⟨i, hi, (inKeyMatches_iff u r i).mpr hk⟩)

theorem addOutgoing_keys_nodup (env : Env) (n : NameNode) (d : Declaration)
    (st : List CallHierarchyOutgoingCall) (h : (outKeys st).Nodup) :
    (outKeys (addOutgoingCallForDeclaration env n d st)).Nodup := by
  unfold addOutgoingCallForDeclaration
  cases hr : env.evaluator.resolveAliasDeclaration d true with
  | none => exact h
  | some rd =>
    dsimp only
    by_cases hk : rd.type = DeclarationType.Function ∨ rd.type = DeclarationType.Class
    · rw [if_pos hk]
      by_cases ha : st.any (outKeyMatches rd.path rd.range) = true
      · rw [if_pos ha]
        have : outKeys (updateFirst (outKeyMatches rd.path rd.range)
            (outUpdateRecord rd n) st) = outKeys st :=
          updateFirst_map (fun o => outKey_outUpdateRecord rd n o) st
        rw [this]
        exact h
      · rw [if_neg ha]
        have hmem := not_mem_outKeys_of_any_false ha
        simp only [outKeys, List.map_append, List.map_cons, List.map_nil]
        rw [List.nodup_append]
        refine ⟨h, List.nodup_singleton _, ?_⟩
        intro k hk1 hk2
        simp only [outKey, List.mem_singleton] at hk2
        subst hk2
        exact hmem hk1
    · rw [if_neg hk]
      exact h

theorem addIncoming_keys_nodup (env : Env) (filePath : String) (n : NameNode)
    (st : List CallHierarchyIncomingCall) (h : (inKeys st).Nodup) :
    (inKeys (addIncomingCallForDeclaration env filePath n st)).Nodup := by
  unfold addIncomingCallForDeclaration
  cases hs : env.program.executionScopeOf n.nodeId with
  | none => exact h
  | some scope =>
    dsimp only
    by_cases ha :
        st.any (inKeyMatches (scopeItem filePath scope).uri (scopeItem filePath scope).range) = true
    · rw [if_pos ha]
      have : inKeys (updateFirst
          (inKeyMatches (scopeItem filePath scope).uri (scopeItem filePath scope).range)
          (inUpdateRecord n) st) = inKeys st :=
        updateFirst_map (fun i => inKey_inUpdateRecord n i) st
      rw [this]
      exact h
    · rw [if_neg ha]
      have hmem := not_mem_inKeys_of_any_false ha
      simp only [inKeys, List.map_append, List.map_cons, List.map_nil]
      rw [List.nodup_append]
      refine ⟨h, List.nodup_singleton _, ?_⟩
      intro k hk1 hk2
      simp only [inKey, List.mem_singleton] at hk2
      subst hk2
      exact hmem hk1

theorem addOutgoing_rangesAt (env : Env) (n : NameNode) (d : Declaration)
    (st : List CallHierarchyOutgoingCall) (key : String × Range) :
    outRangesAt key (addOutgoingCallForDeclaration env n d st) =
      outRangesAt key st ++
        (if outgoingAddKey env d = some key then [nameRangeOf n] else []) := by
  obtain ⟨ku, kr⟩ := key
  unfold addOutgoingCallForDeclaration outgoingAddKey
  cases hr : env.evaluator.resolveAliasDeclaration d true with
  | none => simp
  | some rd =>
    dsimp only
    by_cases hk : rd.type = DeclarationType.Function ∨ rd.type = DeclarationType.Class
    · rw [if_pos hk, if_pos hk]
      by_cases ha : st.any (outKeyMatches rd.path rd.range) = true
      · rw [if_pos ha]
        by_cases hkey : (rd.path, rd.range) = (ku, kr)
        · rw [if_pos (congrArg some hkey)]
          obtain ⟨hu, hr2⟩ := Prod.mk.injEq .. ▸ hkey
          subst hu; subst hr2
          unfold outRangesAt
          rw [find?_updateFirst_self
            (fun o => outKeyMatches_outUpdateRecord rd.path rd.range rd n o) st]
          obtain ⟨o, ho⟩ := find?_some_of_any ha
          rw [ho]
          simp [fromRanges_outUpdateRecord]
        · rw [if_neg (fun hc => hkey (Option.some.inj hc))]
          unfold outRangesAt
          rw [find?_updateFirst_other
            (fun o => outKeyMatches_outUpdateRecord ku kr rd n o)
            (fun o hp hq => hkey (by
              have h1 := (outKeyMatches_iff rd.path rd.range o).mp hp
              have h2 := (outKeyMatches_iff ku kr o).mp hq
              rw [h1] at h2
              exact h2)) st]
          simp
      · rw [if_neg ha]
        by_cases hkey : (rd.path, rd.range) = (ku, kr)
        · rw [if_pos (congrArg some hkey)]
          obtain ⟨hu, hr2⟩ := Prod.mk.injEq .. ▸ hkey
          subst hu; subst hr2
          unfold outRangesAt
          rw [find?_append_cases]
          rw [find?_eq_none_of_any_eq_false (Bool.not_eq_true _ ▸ ha : _ = false)]
          simp [List.find?, outKeyMatches, rangesAreEqual]
        · rw [if_neg (fun hc => hkey (Option.some.inj hc))]
          unfold outRangesAt
          rw [find?_append_cases]
          have hfresh : outKeyMatches ku kr
              ({ toItem :=
                  { name := n.value
                    kind := (env.evaluator.symbolKindOf rd n.value).getD SymbolKind.Module
                    uri := rd.path, range := rd.range, selectionRange := rd.range }
                 fromRanges := [nameRangeOf n] } : CallHierarchyOutgoingCall) = false := by
            cases hb : outKeyMatches ku kr _ with
            | false => rfl
            | true =>
              have hkb := (outKeyMatches_iff ku kr _).mp hb
              simp only [outKey] at hkb
              exact absurd hkb hkey
          cases hf : st.find? (outKeyMatches ku kr) with
          | none => simp [List.find?, hfresh]
          | some o => simp
    · rw [if_neg hk, if_neg hk]
      simp

theorem addIncoming_rangesAt (env : Env) (filePath : String) (n : NameNode)
    (st : List CallHierarchyIncomingCall) (key : String × Range) :
    inRangesAt key (addIncomingCallForDeclaration env filePath n st) =
      inRangesAt key st ++
        (if incomingAddKey env filePath n = some key then [nameRangeOf n] else []) := by
  obtain ⟨ku, kr⟩ := key
  unfold addIncomingCallForDeclaration incomingAddKey
  cases hs : env.program.executionScopeOf n.nodeId with
  | none => simp
  | some scope =>
    dsimp only [Option.map]
    by_cases ha : st.any
        (inKeyMatches (scopeItem filePath scope).uri (scopeItem filePath scope).range) = true
    · rw [if_pos ha]
      by_cases hkey :
          ((scopeItem filePath scope).uri, (scopeItem filePath scope).range) = (ku, kr)
      · rw [if_pos (congrArg some hkey)]
        obtain ⟨hu, hr2⟩ := Prod.mk.injEq .. ▸ hkey
        unfold inRangesAt
        rw [← hu, ← hr2]
        rw [find?_updateFirst_self (fun i => inKeyMatches_inUpdateRecord _ _ n i) st]
        obtain ⟨i, hi⟩ := find?_some_of_any ha
        rw [hi]
        simp [inUpdateRecord]
      · rw [if_neg (fun hc => hkey (Option.some.inj hc))]
        unfold inRangesAt
        rw [find?_updateFirst_other
          (fun i => inKeyMatches_inUpdateRecord ku kr n i)
          (fun i hp hq => hkey (by
            have h1 := (inKeyMatches_iff _ _ i).mp hp
            have h2 := (inKeyMatches_iff ku kr i).mp hq
            rw [h1] at h2
            exact h2)) st]
        simp
    · rw [if_neg ha]
      by_cases hkey :
          ((scopeItem filePath scope).uri, (scopeItem filePath scope).range) = (ku, kr)
      · rw [if_pos (congrArg some hkey)]
        obtain ⟨hu, hr2⟩ := Prod.mk.injEq .. ▸ hkey
        unfold inRangesAt
        rw [← hu, ← hr2]
        rw [find?_append_cases]
        rw [find?_eq_none_of_any_eq_false (Bool.not_eq_true _ ▸ ha : _ = false)]
        simp [List.find?, inKeyMatches, rangesAreEqual]
      · rw [if_neg (fun hc => hkey (Option.some.inj hc))]
        unfold inRangesAt
        rw [find?_append_cases]
        have hfresh : inKeyMatches ku kr
            ({ frm := scopeItem filePath scope
               fromRanges := [nameRangeOf n] } : CallHierarchyIncomingCall) = false := by
          cases hb : inKeyMatches ku kr _ with
          | false => rfl
          | true =>
            have hkb := (inKeyMatches_iff ku kr _).mp hb
            simp only [inKey] at hkb
            exact absurd hkb hkey
        cases hf : st.find? (inKeyMatches ku kr) with
        | none => simp [List.find?, hfresh]
        | some i => simp

theorem applyOutgoingEvent_nodup (env : Env) (st : List CallHierarchyOutgoingCall)
    (e : VisitEvent) (h : (outKeys st).Nodup) :
    (outKeys (applyOutgoingEvent env st e)).Nodup := by
  cases e with
  | call node =>
    dsimp only [applyOutgoingEvent, outgoingVisitCall]
    cases calleeNameNode node with
    | none => exact h
    | some nn =>
      dsimp only
      cases env.evaluator.getDeclarationsForNameNode nn with
      | none => exact h
      | some ds =>
        dsimp only
        exact foldl_preserve (fun st d hp => addOutgoing_keys_nodup env nn d st hp) ds st h
  | memberAccess node =>
    dsimp only [applyOutgoingEvent, outgoingVisitMemberAccess]
    cases env.evaluator.getTypeOfNode node.leftId with
    | none => exact h
    | some lt =>
      dsimp only
      refine foldl_preserve (P := fun st => (outKeys st).Nodup) ?_ (subtypesOf lt) st h
      intro st sub hp
      dsimp only
      cases env.evaluator.makeTopLevelTypeVarsConcrete sub with
      | classType info inst isInst isProp =>
        cases isInst with
        | false => exact hp
        | true =>
          dsimp only
          cases lookUpObjectMember info node.memberName.value with
          | none => exact hp
          | some mi =>
            dsimp only
            cases env.evaluator.getTypeOfMember mi with
            | none => exact hp
            | some mt =>
              dsimp only
              by_cases hc : (isClassInstance mt && isPropertyClass mt) = true
              · rw [if_pos hc]
                exact foldl_preserve
                  (fun st d hq => addOutgoing_keys_nodup env node.memberName d st hq)
                  mi.symbolDeclarations st hp
              · rw [if_neg hc]
                exact hp
      | functionType => exact hp
      | unionType ts => exact hp
      | otherType => exact hp

theorem applyIncomingEvent_nodup (env : Env) (filePath symbolName : String)
    (targetDecl : Declaration) (st : List CallHierarchyIncomingCall)
    (e : VisitEvent) (h : (inKeys st).Nodup) :
    (inKeys (applyIncomingEvent env filePath symbolName targetDecl st e)).Nodup := by
  cases e with
  | call node =>
    dsimp only [applyIncomingEvent, incomingVisitCall]
    cases calleeNameNode node with
    | none => exact h
    | some nn =>
      dsimp only
      by_cases hv : nn.value = symbolName
      · rw [if_pos hv]
        cases env.program.collectorDeclarationsForNode nn with
        | none => exact h
        | some ds =>
          dsimp only
          by_cases hal : targetDecl.type = DeclarationType.Alias
          · rw [if_pos hal]
            cases env.evaluator.resolveAliasDeclaration targetDecl true with
            | none => exact h
            | some rcd =>
              dsimp only
              by_cases hm : (ds.any fun d => areDeclarationsSame d rcd) = true
              · rw [if_pos hm]
                exact addIncoming_keys_nodup env filePath nn st h
              · rw [if_neg hm]
                exact h
          · rw [if_neg hal]
            by_cases hm : (ds.any fun d => areDeclarationsSame d targetDecl) = true
            · rw [if_pos hm]
              exact addIncoming_keys_nodup env filePath nn st h
            · rw [if_neg hm]
              exact h
      · rw [if_neg hv]
        exact h
  | memberAccess node =>
    dsimp only [applyIncomingEvent, incomingVisitMemberAccess]
    by_cases hv : node.memberName.value = symbolName
    · rw [if_pos hv]
      cases env.evaluator.getTypeOfNode node.leftId with
      | none => exact h
      | some lt =>
        dsimp only
        refine foldl_preserve (P := fun st => (inKeys st).Nodup) ?_ (subtypesOf lt) st h
        intro st sub hp
        dsimp only
        cases env.evaluator.makeTopLevelTypeVarsConcrete sub with
        | classType info inst isInst isProp =>
          cases isInst with
          | false => exact hp
          | true =>
            dsimp only
            cases lookUpObjectMember info node.memberName.value with
            | none => exact hp
            | some mi =>
              dsimp only
              cases env.evaluator.getTypeOfMember mi with
              | none => exact hp
              | some mt =>
                dsimp only
                by_cases hm :
                    (mi.symbolDeclarations.any fun d => areDeclarationsSame d targetDecl) = true
                · rw [if_pos hm]
                  exact addIncoming_keys_nodup env filePath node.memberName st hp
                · rw [if_neg hm]
                  exact hp
        | functionType => exact hp
        | unionType ts => exact hp
        | otherType => exact hp
    · rw [if_neg hv]
      exact h

/-- C3: within one query each walker's aggregated output holds at most one
record per distinct (file, range) key — the resolved callee's location for
outgoing records, the caller scope's location for incoming records — and each
add folds the matching occurrence's range onto the end of that record's range
list (so all matching call sites accumulate in discovery order) while leaving
every other key's range list unchanged. -/
theorem c3_aggregation_invariant :
    (∀ (env : Env) (evs : List VisitEvent),
      (outKeys (outgoingFoldPure env evs)).Nodup) ∧
    (∀ (env : Env) (filePath symbolName : String) (targetDecl : Declaration)
        (evs : List VisitEvent),
      (inKeys (incomingFoldPure env filePath symbolName targetDecl evs)).Nodup) ∧
    (∀ (env : Env) (n : NameNode) (d : Declaration)
        (st : List CallHierarchyOutgoingCall) (key : String × Range),
      outRangesAt key (addOutgoingCallForDeclaration env n d st) =
        outRangesAt key st ++
          (if outgoingAddKey env d = some key then [nameRangeOf n] else [])) ∧
    (∀ (env : Env) (filePath : String) (n : NameNode)
        (st : List CallHierarchyIncomingCall) (key : String × Range),
      inRangesAt key (addIncomingCallForDeclaration env filePath n st) =
        inRangesAt key st ++
          (if incomingAddKey env filePath n = some key then [nameRangeOf n] else [])) := by
  refine ⟨?_, ?_, addOutgoing_rangesAt, addIncoming_rangesAt⟩
  · intro env evs
    exact foldl_preserve (fun st e hp => applyOutgoingEvent_nodup env st e hp) evs []
      (by simp [outKeys])
  · intro env filePath symbolName targetDecl evs
    exact foldl_preserve
      (fun st e hp => applyIncomingEvent_nodup env filePath symbolName targetDecl st e hp)
      evs [] (by simp [inKeys])

/-! ## C4: the incoming walker's recording condition -/

/-- The recording condition of claim C4, stated in its own words: the callee
name node exists and its literal text equals the query's symbol name, and at
least one declaration resolved for that node is structurally equal to the
target declaration (or, for an Alias target, to the alias's resolved
declaration). -/
def claimIncomingRecordCond (env : Env) (symbolName : String) (targetDecl : Declaration)
    (node : CallNode) : Prop :=
  ∃ nameNode, calleeNameNode node = some nameNode ∧ nameNode.value = symbolName ∧
    ∃ decls, env.program.collectorDeclarationsForNode nameNode = some decls ∧
      ∃ d ∈ decls,
        if targetDecl.type = DeclarationType.Alias then
          ∃ rd, env.evaluator.resolveAliasDeclaration targetDecl true = some rd ∧
            areDeclarationsSame d rd = true
        else areDeclarationsSame d targetDecl = true

/-- C4: the incoming walker records a call expression — i.e. `visitCall`
reaches `_addIncomingCallForDeclaration` — if and only if the callee name
node's literal text equals the query's symbol name and at least one
declaration resolved for the node is structurally equal to the target
declaration (to the alias's resolved declaration when the target is an
Alias). -/
theorem c4_incoming_record_condition :
    ∀ (env : Env) (filePath symbolName : String) (targetDecl : Declaration)
      (node : CallNode) (st : List CallHierarchyIncomingCall),
      (incomingVisitCall env filePath symbolName targetDecl node st =
        match incomingCallDecision env symbolName targetDecl node with
        | some nn => addIncomingCallForDeclaration env filePath nn st
        | none => st) ∧
      ((incomingCallDecision env symbolName targetDecl node).isSome = true ↔
        claimIncomingRecordCond env symbolName targetDecl node) := by
  intro env filePath symbolName targetDecl node st
  constructor
  · unfold incomingVisitCall incomingCallDecision
    cases calleeNameNode node with
    | none => rfl
    | some nn =>
      dsimp only
      by_cases hv : nn.value = symbolName
      · rw [if_pos hv, if_pos hv]
        cases env.program.collectorDeclarationsForNode nn with
        | none => rfl
        | some ds =>
          dsimp only
          by_cases hal : targetDecl.type = DeclarationType.Alias
          · rw [if_pos hal, if_pos hal]
            cases env.evaluator.resolveAliasDeclaration targetDecl true with
            | none => rfl
            | some rcd =>
              dsimp only
              by_cases hm : (ds.any fun d => areDeclarationsSame d rcd) = true
              · rw [if_pos hm, if_pos hm]
              · rw [if_neg hm, if_neg hm]
          · rw [if_neg hal, if_neg hal]
            by_cases hm : (ds.any fun d => areDeclarationsSame d targetDecl) = true
            · rw [if_pos hm, if_pos hm]
            · rw [if_neg hm, if_neg hm]
      · rw [if_neg hv, if_neg hv]
  · unfold incomingCallDecision claimIncomingRecordCond
    cases hnn : calleeNameNode node with
    | none => simp
    | some nn =>
      dsimp only
      by_cases hv : nn.value = symbolName
      · rw [if_pos hv]
        cases hcd : env.program.collectorDeclarationsForNode nn with
        | none => simp [hv, hcd]
        | some ds =>
          dsimp only
          by_cases hal : targetDecl.type = DeclarationType.Alias
          · rw [if_pos hal]
            cases hra : env.evaluator.resolveAliasDeclaration targetDecl true with
            | none => simp [hv, hcd, hal, hra]
            | some rcd =>
              dsimp only
              by_cases hm : (ds.any fun d => areDeclarationsSame d rcd) = true
              · rw [if_pos hm]
                simp only [Option.isSome_some, true_iff]
                obtain ⟨d, hd, hs⟩ := List.any_eq_true.mp hm
                exact ⟨nn, rfl, hv, ds, hcd, d, hd, by simp [hal, hra, hs]⟩
              · rw [if_neg hm]
                simp only [Option.isSome_none, Bool.false_eq_true, false_iff]
                rintro ⟨nn2, hnn2, hv2, ds2, hcd2, d, hd, hcond⟩
                cases hnn2
                rw [hcd] at hcd2
                cases hcd2
                rw [if_pos hal] at hcond
                obtain ⟨rd, hrd, hs⟩ := hcond
                cases hrd
                exact hm (List.any_eq_true.mpr ⟨d, hd, hs⟩)
          · rw [if_neg hal]
            by_cases hm : (ds.any fun d => areDeclarationsSame d targetDecl) = true
            · rw [if_pos hm]
              simp only [Option.isSome_some, true_iff]
              obtain ⟨d, hd, hs⟩ := List.any_eq_true.mp hm
              exact ⟨nn, rfl, hv, ds, hcd, d, hd, by simp [hal, hs]⟩
            · rw [if_neg hm]
              simp only [Option.isSome_none, Bool.false_eq_true, false_iff]
              rintro ⟨nn2, hnn2, hv2, ds2, hcd2, d, hd, hcond⟩
              cases hnn2
              rw [hcd] at hcd2
              cases hcd2
              rw [if_neg hal] at hcond
              exact hm (List.any_eq_true.mpr ⟨d, hd, hcond⟩)
      · rw [if_neg hv]
        simp only [Option.isSome_none, Bool.false_eq_true, false_iff]
        rintro ⟨nn2, hnn2, hv2, _⟩
        cases hnn2
        exact hv hv2

/-! ## C5: alias precedence in outgoing records -/

/-- C5: when one function body calls the same resolved declaration through its
real name and through an alias spelling, the two adds yield exactly one record
keyed by the resolved declaration, whose displayed name is the resolved
declaration's own name, and whose range list holds both call sites — in either
visit order. -/
theorem c5_alias_precedence :
    ∀ (env : Env) (nReal nAlias : NameNode) (dReal dAlias rd : Declaration),
      env.evaluator.resolveAliasDeclaration dReal true = some rd →
      env.evaluator.resolveAliasDeclaration dAlias true = some rd →
      (rd.type = DeclarationType.Function ∨ rd.type = DeclarationType.Class) →
      getNameFromDeclaration rd = some nReal.value →
      nAlias.value ≠ nReal.value →
      ∃ o1 o2,
        addOutgoingCallForDeclaration env nAlias dAlias
            (addOutgoingCallForDeclaration env nReal dReal []) = [o1] ∧
        addOutgoingCallForDeclaration env nReal dReal
            (addOutgoingCallForDeclaration env nAlias dAlias []) = [o2] ∧
        o1.toItem.name = nReal.value ∧ o2.toItem.name = nReal.value ∧
        o1.toItem.uri = rd.path ∧ o1.toItem.range = rd.range ∧
        o2.toItem.uri = rd.path ∧ o2.toItem.range = rd.range ∧
        o1.fromRanges = [nameRangeOf nReal, nameRangeOf nAlias] ∧
        o2.fromRanges = [nameRangeOf nAlias, nameRangeOf nReal] := by
  intro env nReal nAlias dReal dAlias rd hR hA hk hn hne
  have hne' : ¬(nReal.value = nAlias.value) := fun h => hne h.symm
  refine ⟨
    { toItem :=
        { name := nReal.value
          kind := (env.evaluator.symbolKindOf rd nReal.value).getD SymbolKind.Module
          uri := rd.path, range := rd.range, selectionRange := rd.range }
      fromRanges := [nameRangeOf nReal, nameRangeOf nAlias] },
    { toItem :=
        { name := nReal.value
          kind := (env.evaluator.symbolKindOf rd nAlias.value).getD SymbolKind.Module
          uri := rd.path, range := rd.range, selectionRange := rd.range }
      fromRanges := [nameRangeOf nAlias, nameRangeOf nReal] },
    ?_, ?_, rfl, rfl, rfl, rfl, rfl, rfl, rfl, rfl⟩
  · rcases hk with hk | hk <;>
      simp [addOutgoingCallForDeclaration, hR, hA, hk, outKeyMatches, rangesAreEqual,
        updateFirst, outUpdateRecord, hne', hne, hn]
  · rcases hk with hk | hk <;>
      simp [addOutgoingCallForDeclaration, hR, hA, hk, outKeyMatches, rangesAreEqual,
        updateFirst, outUpdateRecord, hne', hne, hn]

/-- The resolved declaration of the C5 witness: the function `g`. -/
def c5rd : Declaration :=
  { type := DeclarationType.Function, path := "m.py", range := ⟨200, 220⟩, node := 20,
    hasDeclaredTypeFlag := true, name := some "g" }

/-- The alias declaration `h` re-exporting `g`. -/
def c5dAlias : Declaration :=
  { type := DeclarationType.Alias, path := "m.py", range := ⟨5, 6⟩, node := 21,
    hasDeclaredTypeFlag := false, name := some "h" }

/-- The call-site name node spelled `g`. -/
def c5nReal : NameNode := ⟨40, "g", 400, 1⟩

/-- The call-site name node spelled `h`. -/
def c5nAlias : NameNode := ⟨41, "h", 410, 1⟩

/-- Evaluator resolving every declaration to the function `g`. -/
def c5evaluator : TypeEvaluator :=
  { resolveAliasDeclaration := fun _ _ => some c5rd
    getTypeForDeclaration := fun _ => none
    getTypeOfMember := fun _ => none
    getDeclarationsForNameNode := fun _ => none
    getTypeOfNode := fun _ => none
    makeTopLevelTypeVarsConcrete := fun t => t
    symbolKindOf := fun _ _ => some SymbolKind.Function }

/-- The query environment of the C5 witness. -/
def c5env : Env :=
  { program := emptyProgram, filePath := "m.py", evaluator := c5evaluator,
    declarationResult := none }

/-- C5 witness: the alias-precedence theorem at the concrete pair of call
sites `g()` and `h()`. -/
theorem c5_witness :
    ∃ o1 o2,
      addOutgoingCallForDeclaration c5env c5nAlias c5dAlias
          (addOutgoingCallForDeclaration c5env c5nReal c5rd []) = [o1] ∧
      addOutgoingCallForDeclaration c5env c5nReal c5rd
          (addOutgoingCallForDeclaration c5env c5nAlias c5dAlias []) = [o2] ∧
      o1.toItem.name = c5nReal.value ∧ o2.toItem.name = c5nReal.value ∧
      o1.toItem.uri = c5rd.path ∧ o1.toItem.range = c5rd.range ∧
      o2.toItem.uri = c5rd.path ∧ o2.toItem.range = c5rd.range ∧
      o1.fromRanges = [nameRangeOf c5nReal, nameRangeOf c5nAlias] ∧
      o2.fromRanges = [nameRangeOf c5nAlias, nameRangeOf c5nReal] :=
  c5_alias_precedence c5env c5nReal c5nAlias c5rd c5dAlias c5rd
    rfl rfl (Or.inl rfl) rfl (by decide)

/-! ## C6: the candidate file set of `getIncomingCalls` -/

/-- The per-file scan as claim C6 describes it: the walker runs on every file
of the given set with no further test. -/
def runIncomingScanAll (env : Env) (symbolName : String) (targetDecl : Declaration)
    (tok : Token) :
    List SourceFileInfo → Nat → List CallHierarchyIncomingCall →
    Except Unit (List CallHierarchyIncomingCall × Nat)
  | [], t, items => .ok (items, t)
  | f :: rest, t, items =>
    if isCancelled tok t then .error ()
    else
      match env.program.parseResultsOf f.filePath with
      | none => runIncomingScanAll env symbolName targetDecl tok rest (t + 1) items
      | some pr =>
        match runIncomingWalk env f.filePath symbolName targetDecl tok
            pr.moduleEvents (t + 1) [] with
        | .error () => .error ()
        | .ok (fileItems, t') =>
          runIncomingScanAll env symbolName targetDecl tok rest t' (items ++ fileItems)

/-- The candidate file set exactly as claim C6 states it: the querying file
alone for an Alias target, every file the program holds otherwise, restricted
in both cases to first-party user code or files open in the client. -/
def claimCandidateFiles (env : Env) (targetDecl : Declaration) : List SourceFileInfo :=
  (if targetDecl.type = DeclarationType.Alias then
    match env.program.getSourceFileInfo env.filePath with
    | some info => [info]
    | none => []
  else env.program.sourceFileInfoList).filter
    (fun f => isUserCode f || f.isOpenByClient)

/-- C6: `getIncomingCalls`' per-file loop scans exactly the claimed candidate
file set — the guarded loop over the raw file list equals the unguarded scan
over the filtered list, the loop over `getIncomingFiles` equals the unguarded
scan over the claimed set, and for an Alias target every candidate file is the
querying file. -/
theorem c6_candidate_file_set :
    (∀ (env : Env) (symbolName : String) (targetDecl : Declaration) (tok : Token)
        (files : List SourceFileInfo) (t : Nat) (items : List CallHierarchyIncomingCall),
      runIncomingScan env symbolName targetDecl tok files t items =
        runIncomingScanAll env symbolName targetDecl tok
          (files.filter (fun f => isUserCode f || f.isOpenByClient)) t items) ∧
    (∀ (env : Env) (symbolName : String) (targetDecl : Declaration) (tok : Token)
        (t : Nat) (items : List CallHierarchyIncomingCall),
      runIncomingScan env symbolName targetDecl tok
          (getIncomingFiles env targetDecl) t items =
        runIncomingScanAll env symbolName targetDecl tok
          (claimCandidateFiles env targetDecl) t items) ∧
    (∀ (env : Env) (targetDecl : Declaration) (f : SourceFileInfo),
      targetDecl.type = DeclarationType.Alias →
      f ∈ getIncomingFiles env targetDecl →
      env.program.getSourceFileInfo env.filePath = some f) := by
  have main : ∀ (env : Env) (symbolName : String) (targetDecl : Declaration) (tok : Token)
      (files : List SourceFileInfo) (t : Nat) (items : List CallHierarchyIncomingCall),
      runIncomingScan env symbolName targetDecl tok files t items =
        runIncomingScanAll env symbolName targetDecl tok
          (files.filter (fun f => isUserCode f || f.isOpenByClient)) t items := by
    intro env symbolName targetDecl tok files
    induction files with
    | nil => intro t items; rfl
    | cons f rest ih =>
      intro t items
      by_cases hg : (isUserCode f || f.isOpenByClient) = true
      · rw [show List.filter (fun f => isUserCode f || f.isOpenByClient) (f :: rest) =
            f :: List.filter (fun f => isUserCode f || f.isOpenByClient) rest from by
          simp [List.filter_cons, hg]]
        unfold runIncomingScan runIncomingScanAll
        rw [if_pos hg]
        by_cases hc : isCancelled tok t = true
        · rw [if_pos hc, if_pos hc]
        · rw [if_neg hc, if_neg hc]
          cases env.program.parseResultsOf f.filePath with
          | none => exact ih (t + 1) items
          | some pr =>
            dsimp only
            cases runIncomingWalk env f.filePath symbolName targetDecl tok
                pr.moduleEvents (t + 1) [] with
            | error e => cases e; rfl
            | ok p =>
              obtain ⟨fileItems, t'⟩ := p
              exact ih t' (items ++ fileItems)
      · rw [show List.filter (fun f => isUserCode f || f.isOpenByClient) (f :: rest) =
            List.filter (fun f => isUserCode f || f.isOpenByClient) rest from by
          simp [List.filter_cons, hg]]
        unfold runIncomingScan
        rw [if_neg hg]
        exact ih t items
  refine ⟨main, ?_, ?_⟩
  · intro env symbolName targetDecl tok t items
    exact main env symbolName targetDecl tok (getIncomingFiles env targetDecl) t items
  · intro env targetDecl f hal hmem
    unfold getIncomingFiles at hmem
    rw [if_pos hal] at hmem
    cases hsf : env.program.getSourceFileInfo env.filePath with
    | none => rw [hsf] at hmem; simp at hmem
    | some info =>
      rw [hsf] at hmem
      simp only [List.mem_singleton] at hmem
      rw [hmem]

/-- The single file of the C6 witness. -/
def c6file : SourceFileInfo := ⟨"al.py", true, false⟩

/-- The alias declaration under the cursor in the C6 witness. -/
def c6aliasDecl : Declaration :=
  { type := DeclarationType.Alias, path := "al.py", range := ⟨0, 1⟩, node := 2,
    hasDeclaredTypeFlag := false, name := some "a" }

/-- A program host that resolves the querying file to `c6file`. -/
def c6program : ProgramView :=
  { parseResultsOf := fun _ => some ⟨[]⟩
    sourceFileInfoList := [c6file]
    getSourceFileInfo := fun p => if p = "al.py" then some c6file else none
    subtreeEvents := fun _ => []
    collectorDeclarationsForNode := fun _ => none
    executionScopeOf := fun _ => none
    navigable := fun _ => true
    toUri := fun s => s }

/-- The query environment of the C6 witness. -/
def c6env : Env :=
  { program := c6program, filePath := "al.py", evaluator := trivialEvaluator,
    declarationResult := none }

/-- C6 witness: for the concrete alias target, the only candidate file is the
querying file. -/
theorem c6_witness : c6env.program.getSourceFileInfo c6env.filePath = some c6file :=
  c6_candidate_file_set.2.2 c6env c6aliasDecl c6file rfl (by decide)

/-! ## C9: cancellation -/

/-- C9: when the token is triggered, the cancellation condition is raised at
the top of each public operation; a walk whose token triggers during its
visits raises it as well, yielding no partial record list; and a triggered
token inside `getOutgoingCalls`' walk propagates out of the whole operation
(never converted into a null result). -/
theorem c9_cancellation :
    (∀ (env : Env) (tok : Token) (t : Nat), isCancelled tok t = true →
      onPrepare env tok t = .error () ∧ getIncomingCalls env tok t = .error () ∧
      getOutgoingCalls env tok t = .error ()) ∧
    (∀ (env : Env) (n : Nat) (evs : List VisitEvent) (t : Nat)
        (st : List CallHierarchyOutgoingCall),
      evs ≠ [] → n < t + evs.length →
      runOutgoingWalk env (some n) evs t st = .error ()) ∧
    (∀ (env : Env) (filePath symbolName : String) (targetDecl : Declaration)
        (n : Nat) (evs : List VisitEvent) (t : Nat)
        (st : List CallHierarchyIncomingCall),
      evs ≠ [] → n < t + evs.length →
      runIncomingWalk env filePath symbolName targetDecl (some n) evs t st = .error ()) ∧
    (∀ (env : Env) (t n : Nat) (pr : ParseResults) (rr : ReferencesResult)
        (tinfo : TargetInfo) (rd : Declaration) (root : Nat),
      env.program.parseResultsOf env.filePath = some pr →
      env.declarationResult = some rr →
      getTargetDeclaration env rr = some tinfo →
      env.evaluator.resolveAliasDeclaration tinfo.targetDecl true = some rd →
      outgoingParseRoot env rd = some root →
      n < t + 1 + (env.program.subtreeEvents root).length →
      getOutgoingCalls env (some n) t = .error ()) := by
  have part2 : ∀ (env : Env) (n : Nat) (evs : List VisitEvent) (t : Nat)
      (st : List CallHierarchyOutgoingCall),
      evs ≠ [] → n < t + evs.length →
      runOutgoingWalk env (some n) evs t st = .error () := by
    intro env n evs
    induction evs with
    | nil => intro t st hne; exact absurd rfl hne
    | cons e rest ih =>
      intro t st hne hlt
      unfold runOutgoingWalk
      by_cases hc : isCancelled (some n) t = true
      · rw [if_pos hc]
      · rw [if_neg hc]
        have hnt : ¬n ≤ t := by
          intro hle
          exact hc (by simp [isCancelled, hle])
        cases rest with
        | nil =>
          simp only [List.length_cons, List.length_nil] at hlt
          omega
        | cons e2 rest2 =>
          refine ih (t + 1) (applyOutgoingEvent env st e) (by simp) ?_
          simp only [List.length_cons] at hlt ⊢
          omega
  have part3 : ∀ (env : Env) (filePath symbolName : String) (targetDecl : Declaration)
      (n : Nat) (evs : List VisitEvent) (t : Nat)
      (st : List CallHierarchyIncomingCall),
      evs ≠ [] → n < t + evs.length →
      runIncomingWalk env filePath symbolName targetDecl (some n) evs t st = .error () := by
    intro env filePath symbolName targetDecl n evs
    induction evs with
    | nil => intro t st hne; exact absurd rfl hne
    | cons e rest ih =>
      intro t st hne hlt
      unfold runIncomingWalk
      by_cases hc : isCancelled (some n) t = true
      · rw [if_pos hc]
      · rw [if_neg hc]
        have hnt : ¬n ≤ t := by
          intro hle
          exact hc (by simp [isCancelled, hle])
        cases rest with
        | nil =>
          simp only [List.length_cons, List.length_nil] at hlt
          omega
        | cons e2 rest2 =>
          refine ih (t + 1) (applyIncomingEvent env filePath symbolName targetDecl st e)
            (by simp) ?_
          simp only [List.length_cons] at hlt ⊢
          omega
  refine ⟨?_, part2, part3, ?_⟩
  · intro env tok t h
    refine ⟨?_, ?_, ?_⟩
    · unfold onPrepare; rw [if_pos h]
    · unfold getIncomingCalls; rw [if_pos h]
    · unfold getOutgoingCalls; rw [if_pos h]
  · intro env t n pr rr tinfo rd root h1 h2 h3 h4 h5 h6
    by_cases hc : isCancelled (some n) t = true
    · unfold getOutgoingCalls; rw [if_pos hc]
    · have hnt : ¬n ≤ t := by
        intro hle
        exact hc (by simp [isCancelled, hle])
      cases hevs : env.program.subtreeEvents root with
      | nil =>
        rw [hevs] at h6
        simp only [List.length_nil] at h6
        omega
      | cons e rest =>
        have hwalk : runOutgoingWalk env (some n) (env.program.subtreeEvents root)
            (t + 1) [] = .error () := by
          refine part2 env n _ (t + 1) [] (by rw [hevs]; simp) ?_
          omega
        unfold getOutgoingCalls
        rw [if_neg hc, h1]
        dsimp only
        rw [h2]
        dsimp only
        rw [h3]
        dsimp only
        rw [h4]
        dsimp only
        rw [h5]
        dsimp only
        rw [hwalk]

/-- The visit event used by the C9 witness walks. -/
def c9event : VisitEvent := .call ⟨.otherExpr 0⟩

/-- The function declaration of the successful-prepare environment. -/
def c10fn : Declaration :=
  { type := DeclarationType.Function, path := "p.py", range := ⟨100, 120⟩, node := 10,
    hasDeclaredTypeFlag := true, name := some "foo" }

/-- The references result of the successful-prepare environment. -/
def c10rr : ReferencesResult :=
  { nodeAtOffset := ⟨5, "foo", 50, 3⟩, declarations := [c10fn], symbolNames := ["foo"] }

/-- Program host of the successful-prepare environment. -/
def c10program : ProgramView :=
  { parseResultsOf := fun _ => some ⟨[]⟩
    sourceFileInfoList := [⟨"p.py", true, false⟩]
    getSourceFileInfo := fun _ => none
    subtreeEvents := fun _ => []
    collectorDeclarationsForNode := fun _ => none
    executionScopeOf := fun _ => none
    navigable := fun _ => true
    toUri := fun s => s }

/-- Evaluator of the successful-prepare environment. -/
def c10evaluator : TypeEvaluator :=
  { resolveAliasDeclaration := fun d _ => some d
    getTypeForDeclaration := fun _ => none
    getTypeOfMember := fun _ => none
    getDeclarationsForNameNode := fun _ => none
    getTypeOfNode := fun _ => none
    makeTopLevelTypeVarsConcrete := fun t => t
    symbolKindOf := fun _ _ => some SymbolKind.Function }

/-- An environment whose `onPrepare` succeeds with a single item. -/
def c10env : Env :=
  { program := c10program, filePath := "p.py", evaluator := c10evaluator,
    declarationResult := some c10rr }

/-- C9 witness: the cancellation theorem applied at a token triggered from the
very first check, and at a one-event walk. -/
theorem c9_witness :
    (onPrepare c1env (some 0) 0 = .error () ∧
      getIncomingCalls c1env (some 0) 0 = .error () ∧
      getOutgoingCalls c1env (some 0) 0 = .error ()) ∧
    runOutgoingWalk c1env (some 0) [c9event] 0 [] = .error () ∧
    runIncomingWalk c1env "a.py" "x" c1declA (some 0) [c9event] 0 [] = .error () ∧
    getOutgoingCalls c10env (some 0) 0 = .error () :=
  ⟨c9_cancellation.1 c1env (some 0) 0 (by decide),
    c9_cancellation.2.1 c1env 0 [c9event] 0 [] (by simp) (by decide),
    c9_cancellation.2.2.1 c1env "a.py" "x" c1declA 0 [c9event] 0 [] (by simp) (by decide),
    c9_cancellation.2.2.2 c10env 0 0 ⟨[]⟩ c10rr ⟨c10fn, "p.py", "foo"⟩ c10fn 10
      rfl rfl (by decide) rfl rfl (by decide)⟩

/-! ## C10: a non-null prepare result is a single item -/

/-- C10: whenever `onPrepare` returns a non-null result, that result is a list
with exactly one call-hierarchy item. -/
theorem c10_prepare_single_item :
    ∀ (env : Env) (tok : Token) (t : Nat) (l : List CallHierarchyItem),
      onPrepare env tok t = .ok (some l) → l.length = 1 := by
  intro env tok t l h
  unfold onPrepare prepareItem at h
  dsimp only at h
  repeat' split at h
  all_goals first
    | (cases h; rfl)
    | (exact absurd h (by simp))

/-- The single item produced by `onPrepare` in the `c10env` environment. -/
def c10item : CallHierarchyItem :=
  { name := "foo", kind := SymbolKind.Function, uri := "p.py",
    range := ⟨100, 120⟩, selectionRange := ⟨100, 120⟩ }

/-- C10 witness: the concrete successful prepare yields exactly one item. -/
theorem c10_witness : ([c10item] : List CallHierarchyItem).length = 1 :=
  c10_prepare_single_item c10env none 0 [c10item] rfl

/-! ## Pure results of the three operations under a quiet token -/

/-- The option-valued tail of `onPrepare` (item construction, navigability
gate, locator adaptation). -/
def prepareItemResult (env : Env) (tinfo : TargetInfo) : Option (List CallHierarchyItem) :=
  let callItem : CallHierarchyItem :=
    { name := tinfo.symbolName
      kind := (env.evaluator.symbolKindOf tinfo.targetDecl tinfo.symbolName).getD
        SymbolKind.Module
      uri := tinfo.callItemUri
      range := tinfo.targetDecl.range
      selectionRange := tinfo.targetDecl.range }
  if env.program.navigable callItem.uri then
    some [{ callItem with uri := env.program.toUri callItem.uri }]
  else none

theorem prepareItem_eq (env : Env) (tinfo : TargetInfo) :
    prepareItem env tinfo = .ok (prepareItemResult env tinfo) := by
  unfold prepareItem prepareItemResult
  dsimp only
  split <;> rfl

/-- What `onPrepare` returns when no cancellation fires. -/
def prepareResult (env : Env) : Option (List CallHierarchyItem) :=
  match env.program.parseResultsOf env.filePath with
  | none => none
  | some _ =>
    match env.declarationResult with
    | none => none
    | some rr =>
      match getTargetDeclaration env rr with
      | none => none
      | some tinfo =>
        if tinfo.targetDecl.type = DeclarationType.Function ∨
            tinfo.targetDecl.type = DeclarationType.Class ∨
            tinfo.targetDecl.type = DeclarationType.Alias then
          if tinfo.targetDecl.type = DeclarationType.Alias then
            match env.evaluator.resolveAliasDeclaration tinfo.targetDecl true with
            | none => none
            | some resolvedDecl =>
              if resolvedDecl.type = DeclarationType.Function ∨
                  resolvedDecl.type = DeclarationType.Class then
                prepareItemResult env tinfo
              else none
          else prepareItemResult env tinfo
        else none

theorem onPrepare_none_eq (env : Env) (t : Nat) :
    onPrepare env none t = .ok (prepareResult env) := by
  unfold onPrepare prepareResult
  rw [if_neg (by simp [isCancelled] : ¬isCancelled none t = true)]
  cases env.program.parseResultsOf env.filePath with
  | none => rfl
  | some pr =>
    dsimp only
    cases env.declarationResult with
    | none => rfl
    | some rr =>
      dsimp only
      cases getTargetDeclaration env rr with
      | none => rfl
      | some tinfo =>
        dsimp only
        by_cases h1 : tinfo.targetDecl.type = DeclarationType.Function ∨
            tinfo.targetDecl.type = DeclarationType.Class ∨
            tinfo.targetDecl.type = DeclarationType.Alias
        · rw [if_pos h1, if_pos h1]
          by_cases h2 : tinfo.targetDecl.type = DeclarationType.Alias
          · rw [if_pos h2, if_pos h2]
            cases env.evaluator.resolveAliasDeclaration tinfo.targetDecl true with
            | none => rfl
            | some rd =>
              dsimp only
              by_cases h3 : rd.type = DeclarationType.Function ∨
                  rd.type = DeclarationType.Class
              · rw [if_pos h3, if_pos h3]
                exact prepareItem_eq env tinfo
              · rw [if_neg h3, if_neg h3]
          · rw [if_neg h2, if_neg h2]
            exact prepareItem_eq env tinfo
        · rw [if_neg h1, if_neg h1]

/-- What `getOutgoingCalls` returns when no cancellation fires. -/
def outgoingResult (env : Env) : Option (List CallHierarchyOutgoingCall) :=
  match env.program.parseResultsOf env.filePath with
  | none => none
  | some _ =>
    match env.declarationResult with
    | none => none
    | some rr =>
      match getTargetDeclaration env rr with
      | none => none
      | some tinfo =>
        match env.evaluator.resolveAliasDeclaration tinfo.targetDecl true with
        | none => none
        | some resolvedDecl =>
          match outgoingParseRoot env resolvedDecl with
          | none => none
          | some root =>
            let calls := outgoingFoldPure env (env.program.subtreeEvents root)
            if calls.isEmpty then none else some (adaptOutgoing env calls)

theorem getOutgoingCalls_none_eq (env : Env) (t : Nat) :
    getOutgoingCalls env none t = .ok (outgoingResult env) := by
  unfold getOutgoingCalls outgoingResult
  rw [if_neg (by simp [isCancelled] : ¬isCancelled none t = true)]
  cases env.program.parseResultsOf env.filePath with
  | none => rfl
  | some pr =>
    dsimp only
    cases env.declarationResult with
    | none => rfl
    | some rr =>
      dsimp only
      cases getTargetDeclaration env rr with
      | none => rfl
      | some tinfo =>
        dsimp only
        cases env.evaluator.resolveAliasDeclaration tinfo.targetDecl true with
        | none => rfl
        | some rd =>
          dsimp only
          cases outgoingParseRoot env rd with
          | none => rfl
          | some root =>
            dsimp only
            obtain ⟨t', hw⟩ :=
              runOutgoingWalk_none env (env.program.subtreeEvents root) (t + 1) []
            rw [hw]
            dsimp only
            rw [show (env.program.subtreeEvents root).foldl (applyOutgoingEvent env) [] =
              outgoingFoldPure env (env.program.subtreeEvents root) from rfl]
            split <;> rfl

/-- What `getIncomingCalls` returns when no cancellation fires. -/
def incomingResult (env : Env) : Option (List CallHierarchyIncomingCall) :=
  match env.program.parseResultsOf env.filePath with
  | none => none
  | some _ =>
    match env.declarationResult with
    | none => none
    | some rr =>
      match getTargetDeclaration env rr with
      | none => none
      | some tinfo =>
        let items := incomingScanPure env tinfo.symbolName tinfo.targetDecl
          (getIncomingFiles env tinfo.targetDecl) []
        if items.isEmpty then none else some (adaptIncoming env items)

theorem getIncomingCalls_none_eq (env : Env) (t : Nat) :
    getIncomingCalls env none t = .ok (incomingResult env) := by
  unfold getIncomingCalls incomingResult
  rw [if_neg (by simp [isCancelled] : ¬isCancelled none t = true)]
  cases env.program.parseResultsOf env.filePath with
  | none => rfl
  | some pr =>
    dsimp only
    cases env.declarationResult with
    | none => rfl
    | some rr =>
      dsimp only
      cases getTargetDeclaration env rr with
      | none => rfl
      | some tinfo =>
        dsimp only
        obtain ⟨t', hs⟩ := runIncomingScan_none env tinfo.symbolName tinfo.targetDecl
          (getIncomingFiles env tinfo.targetDecl) (t + 1) []
        rw [hs]
        dsimp only
        split <;> rfl

/-! ## C8: null versus empty after the navigability filter -/

/-- The queried function of the C8 counterexample. -/
def c8caller : Declaration :=
  { type := DeclarationType.Function, path := "q.py", range := ⟨0, 50⟩, node := 60,
    hasDeclaredTypeFlag := true, name := some "f" }

/-- The callee of the C8 counterexample, living in a non-navigable file. -/
def c8callee : Declaration :=
  { type := DeclarationType.Function, path := "q.py", range := ⟨60, 80⟩, node := 70,
    hasDeclaredTypeFlag := true, name := some "g" }

/-- The call-site name node `g` inside the queried function. -/
def c8nameNode : NameNode := ⟨71, "g", 10, 1⟩

/-- The references result of the C8 counterexample. -/
def c8rr : ReferencesResult :=
  { nodeAtOffset := ⟨60, "f", 0, 1⟩, declarations := [c8caller], symbolNames := ["f"] }

/-- A program host in which no file is navigable. -/
def c8program : ProgramView :=
  { parseResultsOf := fun _ => some ⟨[]⟩
    sourceFileInfoList := [⟨"q.py", true, false⟩]
    getSourceFileInfo := fun _ => none
    subtreeEvents := fun nid =>
      if nid = 60 then [VisitEvent.call ⟨CalleeExpr.nameExpr c8nameNode⟩] else []
    collectorDeclarationsForNode := fun _ => none
    executionScopeOf := fun _ => none
    navigable := fun _ => false
    toUri := fun s => s }

/-- Evaluator of the C8 counterexample. -/
def c8evaluator : TypeEvaluator :=
  { resolveAliasDeclaration := fun d _ => some d
    getTypeForDeclaration := fun _ => none
    getTypeOfMember := fun _ => none
    getDeclarationsForNameNode := fun nn =>
      if nn = c8nameNode then some [c8callee] else none
    getTypeOfNode := fun _ => none
    makeTopLevelTypeVarsConcrete := fun t => t
    symbolKindOf := fun _ _ => some SymbolKind.Function }

/-- The query environment of the C8 counterexample. -/
def c8env : Env :=
  { program := c8program, filePath := "q.py", evaluator := c8evaluator,
    declarationResult := some c8rr }

/-- C8 counterexample: one call record is aggregated, no record survives the
navigability filter, and `getOutgoingCalls` returns the empty list — not
null — contradicting the claim. -/
theorem c8_counterexample :
    getOutgoingCalls c8env none 0 = .ok (some []) ∧
    (outgoingFoldPure c8env (c8env.program.subtreeEvents 60)).isEmpty = false ∧
    (Except.ok (some ([] : List CallHierarchyOutgoingCall)) :
        Except Unit (Option (List CallHierarchyOutgoingCall))) ≠ .ok none := by
  refine ⟨rfl, rfl, by simp⟩

/-- C8 (amended): `getIncomingCalls` and `getOutgoingCalls` return null exactly
when the aggregated record set is empty before the navigability filter;
otherwise they return the filtered, adapted list — which is empty (but not
null) when no record survives the filter. -/
theorem c8_null_iff_empty_prefilter :
    (∀ (env : Env) (t : Nat) (pr : ParseResults) (rr : ReferencesResult)
        (tinfo : TargetInfo) (rd : Declaration) (root : Nat),
      env.program.parseResultsOf env.filePath = some pr →
      env.declarationResult = some rr →
      getTargetDeclaration env rr = some tinfo →
      env.evaluator.resolveAliasDeclaration tinfo.targetDecl true = some rd →
      outgoingParseRoot env rd = some root →
      getOutgoingCalls env none t =
        .ok (if (outgoingFoldPure env (env.program.subtreeEvents root)).isEmpty then none
          else some (adaptOutgoing env
            (outgoingFoldPure env (env.program.subtreeEvents root))))) ∧
    (∀ (env : Env) (t : Nat) (pr : ParseResults) (rr : ReferencesResult)
        (tinfo : TargetInfo),
      env.program.parseResultsOf env.filePath = some pr →
      env.declarationResult = some rr →
      getTargetDeclaration env rr = some tinfo →
      getIncomingCalls env none t =
        .ok (if (incomingScanPure env tinfo.symbolName tinfo.targetDecl
              (getIncomingFiles env tinfo.targetDecl) []).isEmpty then none
          else some (adaptIncoming env (incomingScanPure env tinfo.symbolName
              tinfo.targetDecl (getIncomingFiles env tinfo.targetDecl) [])))) := by
  constructor
  · intro env t pr rr tinfo rd root h1 h2 h3 h4 h5
    rw [getOutgoingCalls_none_eq]
    unfold outgoingResult
    rw [h1]
    dsimp only
    rw [h2]
    dsimp only
    rw [h3]
    dsimp only
    rw [h4]
    dsimp only
    rw [h5]
  · intro env t pr rr tinfo h1 h2 h3
    rw [getIncomingCalls_none_eq]
    unfold incomingResult
    rw [h1]
    dsimp only
    rw [h2]
    dsimp only
    rw [h3]

/-- C8 witness: the amended equation at the concrete non-navigable
environment, for both operations. -/
theorem c8_witness :
    getOutgoingCalls c8env none 0 =
      .ok (if (outgoingFoldPure c8env (c8env.program.subtreeEvents 60)).isEmpty then none
        else some (adaptOutgoing c8env
          (outgoingFoldPure c8env (c8env.program.subtreeEvents 60)))) ∧
    getIncomingCalls c8env none 0 =
      .ok (if (incomingScanPure c8env "f" c8caller
            (getIncomingFiles c8env c8caller) []).isEmpty then none
        else some (adaptIncoming c8env (incomingScanPure c8env "f" c8caller
            (getIncomingFiles c8env c8caller) []))) :=
  ⟨c8_null_iff_empty_prefilter.1 c8env 0 ⟨[]⟩ c8rr ⟨c8caller, "q.py", "f"⟩ c8caller 60
      rfl rfl (by decide) rfl rfl,
    c8_null_iff_empty_prefilter.2 c8env 0 ⟨[]⟩ c8rr ⟨c8caller, "q.py", "f"⟩
      rfl rfl (by decide)⟩

/-! ## C7: no-result conditions -/

theorem getTargetDeclaration_nil (env : Env) (rr : ReferencesResult)
    (h : rr.declarations = []) : getTargetDeclaration env rr = none := by
  simp [getTargetDeclaration, h]

/-- The variable declaration under the cursor in the C7 counterexample. -/
def c7var : Declaration :=
  { type := DeclarationType.Variable, path := "v.py", range := ⟨40, 41⟩, node := 3,
    hasDeclaredTypeFlag := false, name := some "x" }

/-- The call site `x()` in the C7 counterexample. -/
def c7call : NameNode := ⟨7, "x", 50, 1⟩

/-- The references result of the C7 counterexample. -/
def c7rr : ReferencesResult :=
  { nodeAtOffset := ⟨3, "x", 40, 1⟩, declarations := [c7var], symbolNames := ["x"] }

/-- The program host of the C7 counterexample: one user file whose body calls
`x()` inside the function `caller`. -/
def c7program : ProgramView :=
  { parseResultsOf := fun _ => some ⟨[VisitEvent.call ⟨CalleeExpr.nameExpr c7call⟩]⟩
    sourceFileInfoList := [⟨"v.py", true, false⟩]
    getSourceFileInfo := fun _ => none
    subtreeEvents := fun _ => []
    collectorDeclarationsForNode := fun nn => if nn = c7call then some [c7var] else none
    executionScopeOf := fun _ => some (ExecScope.functionScope "caller" 60 6)
    navigable := fun _ => true
    toUri := fun s => s }

/-- The query environment of the C7 counterexample. -/
def c7env : Env :=
  { program := c7program, filePath := "v.py", evaluator := trivialEvaluator,
    declarationResult := some c7rr }

/-- The incoming record produced in the C7 counterexample. -/
def c7record : CallHierarchyIncomingCall :=
  { frm := { name := "caller", kind := SymbolKind.Function, uri := "v.py",
             range := ⟨60, 66⟩, selectionRange := ⟨60, 66⟩ }
    fromRanges := [⟨50, 51⟩] }

/-- C7 counterexample: the anchored target declaration's kind is Variable —
outside {Function, Class, Alias} — yet `getIncomingCalls` returns a non-null,
non-empty result, contradicting the claim that every listed no-result
condition makes each public operation return null. -/
theorem c7_counterexample :
    getIncomingCalls c7env none 0 = .ok (some [c7record]) ∧
    (getTargetDeclaration c7env c7rr).map (fun ti => ti.targetDecl.type) =
      some DeclarationType.Variable ∧
    (Except.ok (some [c7record]) :
        Except Unit (Option (List CallHierarchyIncomingCall))) ≠ .ok none := by
  refine ⟨rfl, rfl, by simp⟩

/-- C7 (amended): with no cancellation pending, none of the three operations
raises; a missing parse tree for the querying file, or no declaration at the
cursor, makes all three return null; a target kind outside
{Function, Class, Alias} makes `onPrepare` return null and (a non-alias
resolving to itself) `getOutgoingCalls` return null, while `getIncomingCalls`
applies no kind gate; an alias that fails to resolve to a Function or Class
makes `onPrepare` and `getOutgoingCalls` return null; an empty call-record set
makes `getIncomingCalls` and `getOutgoingCalls` return null; a non-navigable
destination file makes `onPrepare` return null, whereas the two call listers
filter such records and may return an empty non-null list. -/
theorem c7_no_result_conditions :
    (∀ (env : Env) (t : Nat),
      onPrepare env none t = .ok (prepareResult env) ∧
      getIncomingCalls env none t = .ok (incomingResult env) ∧
      getOutgoingCalls env none t = .ok (outgoingResult env)) ∧
    (∀ (env : Env) (t : Nat),
      env.program.parseResultsOf env.filePath = none →
      onPrepare env none t = .ok none ∧
      getIncomingCalls env none t = .ok none ∧
      getOutgoingCalls env none t = .ok none) ∧
    (∀ (env : Env) (t : Nat),
      (env.declarationResult = none ∨
        ∀ rr, env.declarationResult = some rr → rr.declarations = []) →
      onPrepare env none t = .ok none ∧
      getIncomingCalls env none t = .ok none ∧
      getOutgoingCalls env none t = .ok none) ∧
    (∀ (env : Env) (t : Nat) (rr : ReferencesResult) (tinfo : TargetInfo),
      env.declarationResult = some rr →
      getTargetDeclaration env rr = some tinfo →
      ¬(tinfo.targetDecl.type = DeclarationType.Function ∨
        tinfo.targetDecl.type = DeclarationType.Class ∨
        tinfo.targetDecl.type = DeclarationType.Alias) →
      onPrepare env none t = .ok none ∧
      (env.evaluator.resolveAliasDeclaration tinfo.targetDecl true =
          some tinfo.targetDecl →
        getOutgoingCalls env none t = .ok none)) ∧
    (∀ (env : Env) (t : Nat) (rr : ReferencesResult) (tinfo : TargetInfo),
      env.declarationResult = some rr →
      getTargetDeclaration env rr = some tinfo →
      tinfo.targetDecl.type = DeclarationType.Alias →
      (env.evaluator.resolveAliasDeclaration tinfo.targetDecl true = none →
        onPrepare env none t = .ok none ∧ getOutgoingCalls env none t = .ok none) ∧
      (∀ rd, env.evaluator.resolveAliasDeclaration tinfo.targetDecl true = some rd →
        ¬rd.type = DeclarationType.Function → ¬rd.type = DeclarationType.Class →
        onPrepare env none t = .ok none ∧ getOutgoingCalls env none t = .ok none)) ∧
    (∀ (env : Env) (t : Nat) (rr : ReferencesResult) (tinfo : TargetInfo)
        (rd : Declaration) (root : Nat),
      env.declarationResult = some rr →
      getTargetDeclaration env rr = some tinfo →
      env.evaluator.resolveAliasDeclaration tinfo.targetDecl true = some rd →
      outgoingParseRoot env rd = some root →
      (outgoingFoldPure env (env.program.subtreeEvents root)).isEmpty = true →
      getOutgoingCalls env none t = .ok none) ∧
    (∀ (env : Env) (t : Nat) (rr : ReferencesResult) (tinfo : TargetInfo),
      env.declarationResult = some rr →
      getTargetDeclaration env rr = some tinfo →
      (incomingScanPure env tinfo.symbolName tinfo.targetDecl
        (getIncomingFiles env tinfo.targetDecl) []).isEmpty = true →
      getIncomingCalls env none t = .ok none) ∧
    (∀ (env : Env) (t : Nat) (rr : ReferencesResult) (tinfo : TargetInfo),
      env.declarationResult = some rr →
      getTargetDeclaration env rr = some tinfo →
      (tinfo.targetDecl.type = DeclarationType.Function ∨
        tinfo.targetDecl.type = DeclarationType.Class ∨
        (tinfo.targetDecl.type = DeclarationType.Alias ∧
          ∃ rd, env.evaluator.resolveAliasDeclaration tinfo.targetDecl true = some rd ∧
            (rd.type = DeclarationType.Function ∨ rd.type = DeclarationType.Class))) →
      env.program.navigable tinfo.callItemUri = false →
      onPrepare env none t = .ok none) ∧
    getOutgoingCalls c8env none 0 = .ok (some []) := by
  refine ⟨?_, ?_, ?_, ?_, ?_, ?_, ?_, ?_, rfl⟩
  · intro env t
    exact ⟨onPrepare_none_eq env t, getIncomingCalls_none_eq env t,
      getOutgoingCalls_none_eq env t⟩
  · intro env t h
    refine ⟨?_, ?_, ?_⟩
    · rw [onPrepare_none_eq]
      unfold prepareResult
      rw [h]
    · rw [getIncomingCalls_none_eq]
      unfold incomingResult
      rw [h]
    · rw [getOutgoingCalls_none_eq]
      unfold outgoingResult
      rw [h]
  · intro env t h
    refine ⟨?_, ?_, ?_⟩
    · rw [onPrepare_none_eq]
      unfold prepareResult
      cases hp : env.program.parseResultsOf env.filePath with
      | none => rfl
      | some pr =>
        dsimp only
        rcases h with h | h
        · rw [h]
        · cases hd : env.declarationResult with
          | none => rfl
          | some rr =>
            dsimp only
            rw [getTargetDeclaration_nil env rr (h rr hd)]
    · rw [getIncomingCalls_none_eq]
      unfold incomingResult
      cases hp : env.program.parseResultsOf env.filePath with
      | none => rfl
      | some pr =>
        dsimp only
        rcases h with h | h
        · rw [h]
        · cases hd : env.declarationResult with
          | none => rfl
          | some rr =>
            dsimp only
            rw [getTargetDeclaration_nil env rr (h rr hd)]
    · rw [getOutgoingCalls_none_eq]
      unfold outgoingResult
      cases hp : env.program.parseResultsOf env.filePath with
      | none => rfl
      | some pr =>
        dsimp only
        rcases h with h | h
        · rw [h]
        · cases hd : env.declarationResult with
          | none => rfl
          | some rr =>
            dsimp only
            rw [getTargetDeclaration_nil env rr (h rr hd)]
  · intro env t rr tinfo hd ht hk
    have hkF : ¬tinfo.targetDecl.type = DeclarationType.Function :=
      fun hc => hk (Or.inl hc)
    have hkC : ¬tinfo.targetDecl.type = DeclarationType.Class :=
      fun hc => hk (Or.inr (Or.inl hc))
    constructor
    · rw [onPrepare_none_eq]
      unfold prepareResult
      cases hp : env.program.parseResultsOf env.filePath with
      | none => rfl
      | some pr =>
        dsimp only
        rw [hd]
        dsimp only
        rw [ht]
        dsimp only
        rw [if_neg hk]
    · intro hres
      rw [getOutgoingCalls_none_eq]
      unfold outgoingResult
      cases hp : env.program.parseResultsOf env.filePath with
      | none => rfl
      | some pr =>
        dsimp only
        rw [hd]
        dsimp only
        rw [ht]
        dsimp only
        rw [hres]
        dsimp only
        rw [show outgoingParseRoot env tinfo.targetDecl = none from by
          unfold outgoingParseRoot
          rw [if_neg hkF, if_neg hkC]]
  · intro env t rr tinfo hd ht hA
    constructor
    · intro hres
      constructor
      · rw [onPrepare_none_eq]
        unfold prepareResult
        cases hp : env.program.parseResultsOf env.filePath with
        | none => rfl
        | some pr =>
          dsimp only
          rw [hd]
          dsimp only
          rw [ht]
          dsimp only
          rw [if_pos (Or.inr (Or.inr hA)), if_pos hA, hres]
      · rw [getOutgoingCalls_none_eq]
        unfold outgoingResult
        cases hp : env.program.parseResultsOf env.filePath with
        | none => rfl
        | some pr =>
          dsimp only
          rw [hd]
          dsimp only
          rw [ht]
          dsimp only
          rw [hres]
    · intro rd hres hrF hrC
      constructor
      · rw [onPrepare_none_eq]
        unfold prepareResult
        cases hp : env.program.parseResultsOf env.filePath with
        | none => rfl
        | some pr =>
          dsimp only
          rw [hd]
          dsimp only
          rw [ht]
          dsimp only
          rw [if_pos (Or.inr (Or.inr hA)), if_pos hA, hres]
          dsimp only
          rw [if_neg (by
            rintro (hc | hc)
            · exact hrF hc
            · exact hrC hc)]
      · rw [getOutgoingCalls_none_eq]
        unfold outgoingResult
        cases hp : env.program.parseResultsOf env.filePath with
        | none => rfl
        | some pr =>
          dsimp only
          rw [hd]
          dsimp only
          rw [ht]
          dsimp only
          rw [hres]
          dsimp only
          rw [show outgoingParseRoot env rd = none from by
            unfold outgoingParseRoot
            rw [if_neg hrF, if_neg hrC]]
  · intro env t rr tinfo rd root hd ht hres hroot hempty
    rw [getOutgoingCalls_none_eq]
    unfold outgoingResult
    cases hp : env.program.parseResultsOf env.filePath with
    | none => rfl
    | some pr =>
      dsimp only
      rw [hd]
      dsimp only
      rw [ht]
      dsimp only
      rw [hres]
      dsimp only
      rw [hroot]
      dsimp only
      rw [if_pos hempty]
  · intro env t rr tinfo hd ht hempty
    rw [getIncomingCalls_none_eq]
    unfold incomingResult
    cases hp : env.program.parseResultsOf env.filePath with
    | none => rfl
    | some pr =>
      dsimp only
      rw [hd]
      dsimp only
      rw [ht]
      dsimp only
      rw [if_pos hempty]
  · intro env t rr tinfo hd ht helig hnav
    rw [onPrepare_none_eq]
    unfold prepareResult
    cases hp : env.program.parseResultsOf env.filePath with
    | none => rfl
    | some pr =>
      dsimp only
      rw [hd]
      dsimp only
      rw [ht]
      dsimp only
      have h1 : tinfo.targetDecl.type = DeclarationType.Function ∨
          tinfo.targetDecl.type = DeclarationType.Class ∨
          tinfo.targetDecl.type = DeclarationType.Alias := by
        rcases helig with h | h | ⟨h, _⟩
        · exact Or.inl h
        · exact Or.inr (Or.inl h)
        · exact Or.inr (Or.inr h)
      rw [if_pos h1]
      rcases helig with hF | hC | ⟨hA, rd, hres, hk⟩
      · rw [if_neg (by rw [hF]; intro hc; cases hc)]
        simp [prepareItemResult, hnav]
      · rw [if_neg (by rw [hC]; intro hc; cases hc)]
        simp [prepareItemResult, hnav]
      · rw [if_pos hA, hres]
        dsimp only
        rw [if_pos hk]
        simp [prepareItemResult, hnav]

/-- An environment whose querying file has no parse results. -/
def c7noParseEnv : Env :=
  { program := emptyProgram, filePath := "z.py", evaluator := trivialEvaluator,
    declarationResult := none }

/-- C7 witness: the amended theorem applied at a file without parse results
(all three operations return null) and at the Variable-kind target of the
counterexample environment (prepare and outgoing return null). -/
theorem c7_witness :
    (onPrepare c7noParseEnv none 0 = .ok none ∧
      getIncomingCalls c7noParseEnv none 0 = .ok none ∧
      getOutgoingCalls c7noParseEnv none 0 = .ok none) ∧
    (onPrepare c7env none 0 = .ok none ∧ getOutgoingCalls c7env none 0 = .ok none) :=
  ⟨c7_no_result_conditions.2.1 c7noParseEnv 0 rfl,
    (let h := c7_no_result_conditions.2.2.2.1 c7env 0 c7rr ⟨c7var, "v.py", "x"⟩
        rfl (by decide) (by decide)
    ⟨h.1, h.2 rfl⟩)⟩

end CallHierarchy
